import Mathlib

/-!
# git-tree: a verification development

A shallow embedding of the worktree manager (packages `util`, `config`, `git`
and `cmd`) together with the properties of its registry, path derivation and
lifecycle commands.

Go strings are byte sequences; they are embedded as lists of byte values.
The parts of the Go standard library the program calls (`path/filepath`,
`strings`, `unicode/utf8`, `encoding/json`) are embedded for a Unix system.
-/

namespace GitTree

/-! ## Strings -/

/-- A Go string: a sequence of bytes, each a number below 256. -/
abbrev GoString := List Nat

/-- The bytes of an ASCII string literal of the source. -/
def lit (s : String) : GoString := s.toList.map Char.toNat

/-- The path separator, the byte of the slash character. -/
abbrev slash : Nat := 47

/-- Go `strings.Split(s, sep)` for a separator of one byte: the pieces between
the occurrences of the separator, one more than there are occurrences. -/
def splitOn (sep : Nat) : GoString → List GoString
  | [] => [[]]
  | b :: rest =>
    if b = sep then [] :: splitOn sep rest
    else
      match splitOn sep rest with
      | [] => [[b]]
      | c :: cs => (b :: c) :: cs

/-- Go `strings.Join(elems, sep)`. -/
def joinWith (sep : GoString) (elems : List GoString) : GoString :=
  sep.intercalate elems

/-! ## path/filepath on Unix -/

/-- One step of the scan of `filepath.Clean`, on the path element `c`, with the
elements written so far in `stack`, the last one first. An empty element and
`.` are dropped; `..` removes the last element written when there is one that
is not itself `..`, is kept in a relative path, and is dropped at the root. -/
def cleanStep (rooted : Bool) (stack : List GoString) (c : GoString) : List GoString :=
  if c = [] ∨ c = lit "." then stack
  else if c = lit ".." then
    match stack with
    | [] => if rooted then [] else [c]
    | top :: below =>
      if top = lit ".." then (if rooted then stack else c :: stack) else below
  else c :: stack

/-- Whether a path starts at the root. -/
def isRooted (path : GoString) : Bool := path.head? = some slash

/-- The text of a cleaned path from its elements (last one first). -/
def renderPath (rooted : Bool) (stack : List GoString) : GoString :=
  let body := joinWith [slash] stack.reverse
  if rooted then slash :: body
  else if body = [] then lit "." else body

/-- Go `filepath.Clean`: the shortest path equivalent to `path` by lexical
processing alone. The empty path cleans to `.`. -/
def Clean (path : GoString) : GoString :=
  if path = [] then lit "."
  else
    renderPath (isRooted path)
      ((splitOn slash path).foldl (cleanStep (isRooted path)) [])

/-- Go `filepath.Join`: the elements from the first non-empty one on, joined
with the separator and cleaned; the empty string when all are empty. -/
def Join : List GoString → GoString
  | [] => []
  | e :: rest => if e = [] then Join rest else Clean (joinWith [slash] (e :: rest))

/-- The part of a path up to and including its last separator. -/
def dirPart : GoString → GoString
  | [] => []
  | b :: rest =>
    if slash ∈ rest then b :: dirPart rest
    else if b = slash then [slash] else []

/-- Go `filepath.Dir`: all but the last element of the path, cleaned. -/
def Dir (path : GoString) : GoString := Clean (dirPart path)

/-- Go `filepath.Base`: the last element of the path, trailing separators
removed first; `.` for the empty path and the separator for a path of
separators only. -/
def Base (path : GoString) : GoString :=
  if path = [] then lit "."
  else
    let stripped := (path.reverse.dropWhile (fun b => b = slash)).reverse
    let last := (stripped.reverse.takeWhile (fun b => b ≠ slash)).reverse
    if last = [] then [slash] else last

/-- Go `filepath.IsAbs` on Unix. -/
def IsAbs (path : GoString) : Bool := isRooted path

/-- Go `filepath.Abs`, given the result of `os.Getwd` (`none` when it fails):
an absolute path is cleaned, a relative one is joined to the working
directory, which fails when the working directory cannot be determined. -/
def Abs (cwd : Option GoString) (path : GoString) : Option GoString :=
  if IsAbs path then some (Clean path)
  else
    match cwd with
    | none => none
    | some wd => some (Join [wd, path])

/-- The shape of the element stack during `Clean`: elements are non-empty,
are not `.`, hold no separator, and `..` stands only below other `..`, in a
relative path. -/
def GoodStack (rooted : Bool) : List GoString → Prop
  | [] => True
  | c :: below =>
    (c ≠ [] ∧ c ≠ lit "." ∧ slash ∉ c) ∧
    (c = lit ".." → rooted = false ∧ ∀ d ∈ below, d = lit "..") ∧
    GoodStack rooted below

/-! ## Package util: path derivation -/

/-- GetRepoName of util/paths.go: the basename of the repository. -/
def GetRepoName (repoPath : GoString) : GoString := Base repoPath

/-- GetWorktreeBasePath of util/paths.go: the directory that holds all
worktrees of a repository, `<repo-parent>/worktrees/<repo-name>`. -/
def GetWorktreeBasePath (repoPath : GoString) : GoString :=
  let repoParent := Dir repoPath
  let repoName := GetRepoName repoPath
  Join [repoParent, lit "worktrees", repoName]

/-- GetWorktreePath of util/paths.go: the full path of one worktree. -/
def GetWorktreePath (repoPath ticketID : GoString) : GoString :=
  let basePath := GetWorktreeBasePath repoPath
  Join [basePath, ticketID]

/-! ## unicode/utf8 and strings -/

/-- Whether `b` is a UTF-8 continuation byte. -/
def isCont (b : Nat) : Bool := 0x80 ≤ b ∧ b ≤ 0xBF

/-- The width of the UTF-8 encoding at the start of the string as
`utf8.DecodeRune` accepts it, 0 when the bytes there are not a valid encoding
(Go then reports the error rune with width 1). -/
def runeWidth : GoString → Nat
  | [] => 0
  | b0 :: rest =>
    if b0 < 0x80 then 1
    else if 0xC2 ≤ b0 ∧ b0 ≤ 0xDF then
      match rest with
      | b1 :: _ => if isCont b1 then 2 else 0
      | _ => 0
    else if 0xE0 ≤ b0 ∧ b0 ≤ 0xEF then
      match rest with
      | b1 :: b2 :: _ =>
        if (if b0 = 0xE0 then 0xA0 else 0x80) ≤ b1 ∧ b1 ≤ (if b0 = 0xED then 0x9F else 0xBF)
            ∧ isCont b2 then 3 else 0
      | _ => 0
    else if 0xF0 ≤ b0 ∧ b0 ≤ 0xF4 then
      match rest with
      | b1 :: b2 :: b3 :: _ =>
        if (if b0 = 0xF0 then 0x90 else 0x80) ≤ b1 ∧ b1 ≤ (if b0 = 0xF4 then 0x8F else 0xBF)
            ∧ isCont b2 ∧ isCont b3 then 4 else 0
      | _ => 0
    else 0

/-- The UTF-8 encoding of U+FFFD, the replacement character. -/
def replacementChar : GoString := [0xEF, 0xBF, 0xBD]

/-- The string with every byte that is not part of a valid UTF-8 encoding
replaced by U+FFFD; `skip` counts the bytes still to copy of the encoding
being read. -/
def coerceFrom : Nat → GoString → GoString
  | _, [] => []
  | k + 1, b :: rest => b :: coerceFrom k rest
  | 0, b :: rest =>
    match runeWidth (b :: rest) with
    | 0 => replacementChar ++ coerceFrom 0 rest
    | n + 1 => b :: coerceFrom n rest

/-- What `encoding/json` makes of a Go string, when writing it and when
reading it: the string coerced to valid UTF-8, invalid bytes replaced by the
Unicode replacement character. -/
def toValidUTF8 (s : GoString) : GoString := coerceFrom 0 s

/-- Whether every byte from here on belongs to a valid UTF-8 encoding, `skip`
bytes of the current one being already accepted. -/
def validFrom : Nat → GoString → Bool
  | _, [] => true
  | k + 1, _ :: rest => validFrom k rest
  | 0, b :: rest =>
    match runeWidth (b :: rest) with
    | 0 => false
    | n + 1 => validFrom n rest

/-- Go `utf8.ValidString`. -/
def ValidUTF8 (s : GoString) : Bool := validFrom 0 s

/-- The ASCII white space characters of `unicode.IsSpace`: tab, line feed,
vertical tab, form feed, carriage return and space. -/
def isAsciiSpace (b : Nat) : Bool := b = 9 ∨ b = 10 ∨ b = 11 ∨ b = 12 ∨ b = 13 ∨ b = 32

/-- The white space characters of two bytes: U+0085 and U+00A0. -/
def isSpace2 (b0 b1 : Nat) : Bool := b0 = 0xC2 ∧ (b1 = 0x85 ∨ b1 = 0xA0)

/-- The white space characters of three bytes: U+1680, U+2000 to U+200A,
U+2028, U+2029, U+202F, U+205F and U+3000. -/
def isSpace3 (b0 b1 b2 : Nat) : Bool :=
  (b0 = 0xE1 ∧ b1 = 0x9A ∧ b2 = 0x80)
    ∨ (b0 = 0xE2 ∧ b1 = 0x80 ∧ ((0x80 ≤ b2 ∧ b2 ≤ 0x8A) ∨ b2 = 0xA8 ∨ b2 = 0xA9 ∨ b2 = 0xAF))
    ∨ (b0 = 0xE2 ∧ b1 = 0x81 ∧ b2 = 0x9F)
    ∨ (b0 = 0xE3 ∧ b1 = 0x80 ∧ b2 = 0x80)

/-- The width of the white space character (`unicode.IsSpace`) at the start of
the string, 0 when the string does not start with one. -/
def spaceWidth : GoString → Nat
  | [] => 0
  | [b0] => if isAsciiSpace b0 then 1 else 0
  | [b0, b1] => if isAsciiSpace b0 then 1 else if isSpace2 b0 b1 then 2 else 0
  | b0 :: b1 :: b2 :: _ =>
    if isAsciiSpace b0 then 1 else if isSpace2 b0 b1 then 2
    else if isSpace3 b0 b1 b2 then 3 else 0

/-- The width of the white space character at the end of a string, given the
string reversed; 0 when it does not end with one. -/
def spaceWidthRev : GoString → Nat
  | [] => 0
  | [b0] => if isAsciiSpace b0 then 1 else 0
  | [b0, b1] => if isAsciiSpace b0 then 1 else if isSpace2 b1 b0 then 2 else 0
  | b0 :: b1 :: b2 :: _ =>
    if isAsciiSpace b0 then 1 else if isSpace2 b1 b0 then 2
    else if isSpace3 b2 b1 b0 then 3 else 0

/-- Dropping white space characters from the front; `width` measures the
character at the front and `skip` counts the bytes still to drop of the one
being dropped. -/
def dropSpaces (width : GoString → Nat) : Nat → GoString → GoString
  | _, [] => []
  | k + 1, _ :: rest => dropSpaces width k rest
  | 0, b :: rest =>
    match width (b :: rest) with
    | 0 => b :: rest
    | n + 1 => dropSpaces width n rest

/-- Go `strings.TrimSpace`: the string without leading and trailing white
space, as Unicode defines it. -/
def TrimSpace (s : GoString) : GoString :=
  (dropSpaces spaceWidthRev 0 (dropSpaces spaceWidth 0 s).reverse).reverse

/-- Go `strings.CutPrefix`: the rest of `s` after the leading `pre`, when `s`
starts with it. -/
def cutLeading (pre s : GoString) : Option GoString :=
  if pre.isPrefixOf s then some (s.drop pre.length) else none

/-! ## Errors, time and the outside world -/

/-- A Go error value. `errorf` and `wrapf` are calls of `fmt.Errorf` with the
format of the source, its string arguments and, for a format with `%w`, the
error it wraps; `external` stands for an error made outside the program (by
the operating system, a subprocess or a library). -/
inductive Error where
  | external : Error
  | errorf (format : String) (args : List GoString) : Error
  | wrapf (format : String) (args : List GoString) (cause : Error) : Error
deriving DecidableEq, Repr

/-- A Go `time.Time`: a point in time, counted in nanoseconds from the zero
time. -/
structure Time where
  nanos : Int
deriving DecidableEq, Repr

/-- The zero value of `time.Time`. -/
def Time.zero : Time := ⟨0⟩

/-- A JSON document, as `encoding/json` reads it from a text and writes it to
one. Strings hold the bytes their literals denote. -/
inductive Json where
  | null : Json
  | bool (b : Bool) : Json
  | number (text : GoString) : Json
  | str (s : GoString) : Json
  | array (items : List Json) : Json
  | object (fields : List (GoString × Json)) : Json

/-- The contents of a file: a JSON text, given by the document it denotes, or
bytes that are not a JSON text. -/
inductive FileData where
  | json (doc : Json) : FileData
  | text (bytes : GoString) : FileData

/-- The result of `os.ReadFile`. -/
inductive ReadResult where
  | ok (data : FileData) : ReadResult
  | notExist : ReadResult
  | failed : ReadResult

/-- The result of running a subprocess: whether it exited with success, and
what it wrote. -/
structure ExecResult where
  ok : Bool
  stdout : GoString
  stderr : GoString

/-- What `cmd.CombinedOutput` returns. -/
def ExecResult.combined (r : ExecResult) : GoString := r.stdout ++ r.stderr

/-- An effect of the program on the outside world. -/
inductive Event where
  | exec (dir : GoString) (args : List GoString) : Event
  | mkdirAll (path : GoString) : Event
  | writeFile (path : GoString) (doc : Json) : Event
  | readLine : Event

/-- The world a command runs in. The file system and the clock answer
queries; `git` answers each run of the backend, given the effects so far;
`log` holds the effects of the program, oldest first; `scanCounts` is the
reading `fmt.Sscanf` makes of a text with the format `%d\t%d`. Console output
is not part of the model, but for the rows of the table List prints. -/
structure World where
  cwd : Option GoString
  stat : GoString → Option Bool
  readFile : GoString → ReadResult
  writable : GoString → Bool
  mkdirOk : GoString → Bool
  git : List Event → GoString → List GoString → ExecResult
  stdin : GoString
  now : Time
  timeMarshal : Time → Option GoString
  timeUnmarshal : GoString → Option Time
  scanCounts : GoString → Option (Int × Int)
  log : List Event

/-- The result of a step in a world: a value or an error, and the world
after it. -/
abbrev Outcome (α : Type) := Except Error α × World

/-- Running `exec.Command("git", args...)` with `cmd.Dir = dir`. -/
def World.runGit (w : World) (dir : GoString) (args : List GoString) : ExecResult × World :=
  (w.git w.log dir args, { w with log := w.log ++ [Event.exec dir args] })

/-- Go `os.WriteFile` of a JSON text: an error when the file cannot be
written; otherwise the file holds the text from then on. -/
def World.writeFile (w : World) (path : GoString) (doc : Json) : Outcome Unit :=
  if w.writable path then
    (.ok (), { w with
      readFile := fun p => if p = path then ReadResult.ok (FileData.json doc) else w.readFile p
      log := w.log ++ [Event.writeFile path doc] })
  else (.error Error.external, { w with log := w.log ++ [Event.writeFile path doc] })

/-! ## Package config -/

/-- WorktreeEntry of config/config.go: the metadata of one worktree. -/
structure WorktreeEntry where
  Path : GoString
  Branch : GoString
  Created : Time
  Ticket : GoString
deriving DecidableEq, Repr

/-- A Go `map[string]WorktreeEntry` that has been made: a finite map with
unique keys. The order of its entries stands for the order in which a `range`
loop visits them. -/
abbrev WorktreeMap := AList (fun _ : GoString => WorktreeEntry)

/-- Metadata of config/config.go: the registry of a repository. -/
structure Metadata where
  Worktrees : WorktreeMap
  Mainline : GoString
deriving DecidableEq

/-- The value `json.Unmarshal` leaves in a `var meta Metadata`: the map is
nil (`none`) unless the text gave one. -/
structure RawMetadata where
  Worktrees : Option WorktreeMap
  Mainline : GoString

/-- metadataPath of config/config.go. -/
def metadataPath (repoPath : GoString) : GoString :=
  Join [repoPath, lit ".git", lit "worktree-metadata.json"]

/-- The JSON object `encoding/json` writes for a WorktreeEntry: its fields in
the order of the struct, under the names of their tags. No object when the
time cannot be written. -/
def marshalEntry (timeMarshal : Time → Option GoString) (e : WorktreeEntry) : Option Json :=
  match timeMarshal e.Created with
  | none => none
  | some created =>
    some (Json.object [
      (lit "path", Json.str (toValidUTF8 e.Path)),
      (lit "branch", Json.str (toValidUTF8 e.Branch)),
      (lit "created", Json.str created),
      (lit "ticket", Json.str (toValidUTF8 e.Ticket))])

/-- The members of the JSON object for the entries given, in their order. -/
def marshalEntries (timeMarshal : Time → Option GoString) :
    List (Sigma (fun _ : GoString => WorktreeEntry)) → Option (List (GoString × Json))
  | [] => some []
  | kv :: rest =>
    match marshalEntry timeMarshal kv.2, marshalEntries timeMarshal rest with
    | some j, some js => some ((toValidUTF8 kv.1, j) :: js)
    | _, _ => none

/-- The order in which `encoding/json` writes the keys of a map: that of the
key strings, byte by byte. -/
def keyLE (a b : Sigma (fun _ : GoString => WorktreeEntry)) : Prop := ¬ b.1 < a.1

instance : DecidableRel keyLE := fun a b => by unfold keyLE; exact inferInstance

/-- Go `json.MarshalIndent(meta, "", "  ")`, as the document written. -/
def marshalMetadata (timeMarshal : Time → Option GoString) (m : Metadata) : Option Json :=
  match marshalEntries timeMarshal (m.Worktrees.entries.insertionSort keyLE) with
  | none => none
  | some fields =>
    some (Json.object [
      (lit "worktrees", Json.object fields),
      (lit "mainline", Json.str (toValidUTF8 m.Mainline))])

/-- Case folding of an object key, as far as it bears on matching the field
names of the source, which are ASCII: letters fold to capitals, and so do the
Kelvin sign (with K) and the long s (with S). -/
def foldKey : GoString → GoString
  | 0xE2 :: 0x84 :: 0xAA :: rest => 75 :: foldKey rest
  | 0xC5 :: 0xBF :: rest => 83 :: foldKey rest
  | b :: rest => (if 97 ≤ b ∧ b ≤ 122 then b - 32 else b) :: foldKey rest
  | [] => []

/-- Whether an object key names the struct field with the tag `name`: the
exact name, or else one equal to it under case folding. -/
def fieldIs (name : String) (key : GoString) : Bool :=
  key = lit name ∨ foldKey key = foldKey (lit name)

/-- Decoding a JSON value into a string field: `null` leaves the field as it
is, a string sets it, anything else is an error. -/
def decodeString (old : GoString) : Json → Option GoString
  | Json.null => some old
  | Json.str s => some (toValidUTF8 s)
  | _ => none

/-- Decoding a JSON value into a `time.Time` field. -/
def decodeTime (timeUnmarshal : GoString → Option Time) (old : Time) : Json → Option Time
  | Json.null => some old
  | Json.str s => timeUnmarshal s
  | _ => none

/-- Decoding one member of a JSON object into a WorktreeEntry; a member that
names no field is ignored. -/
def decodeEntryField (timeUnmarshal : GoString → Option Time) (e : WorktreeEntry)
    (kv : GoString × Json) :
    Option WorktreeEntry :=
  let key := toValidUTF8 kv.1
  if fieldIs "path" key then (decodeString e.Path kv.2).map (fun s => { e with Path := s })
  else if fieldIs "branch" key then
    (decodeString e.Branch kv.2).map (fun s => { e with Branch := s })
  else if fieldIs "created" key then
    (decodeTime timeUnmarshal e.Created kv.2).map (fun t => { e with Created := t })
  else if fieldIs "ticket" key then
    (decodeString e.Ticket kv.2).map (fun s => { e with Ticket := s })
  else some e

/-- Decoding the members of an object one after the other. -/
def decodeFields {α β : Type} (step : α → β → Option α) : α → List β → Option α
  | a, [] => some a
  | a, x :: rest =>
    match step a x with
    | none => none
    | some a2 => decodeFields step a2 rest

/-- Decoding a JSON value into a WorktreeEntry. -/
def decodeEntry (timeUnmarshal : GoString → Option Time) (e : WorktreeEntry) :
    Json → Option WorktreeEntry
  | Json.null => some e
  | Json.object fields => decodeFields (decodeEntryField timeUnmarshal) e fields
  | _ => none

/-- The zero value of WorktreeEntry. -/
def WorktreeEntry.zero : WorktreeEntry := ⟨[], [], Time.zero, []⟩

/-- Decoding one member of a JSON object into a map: the value is decoded into
a zero entry, which is stored under the key. -/
def decodeMapField (timeUnmarshal : GoString → Option Time) (m : WorktreeMap)
    (kv : GoString × Json) : Option WorktreeMap :=
  (decodeEntry timeUnmarshal WorktreeEntry.zero kv.2).map (fun e => m.insert (toValidUTF8 kv.1) e)

/-- Decoding a JSON value into the map field: `null` makes it nil, an object
adds its members to the map, made first if it is nil. -/
def decodeMap (timeUnmarshal : GoString → Option Time) (old : Option WorktreeMap) :
    Json → Option (Option WorktreeMap)
  | Json.null => some none
  | Json.object fields => (decodeFields (decodeMapField timeUnmarshal) (old.getD ∅) fields).map some
  | _ => none

/-- Decoding one member of the top object into the Metadata. -/
def decodeMetadataField (timeUnmarshal : GoString → Option Time) (m : RawMetadata)
    (kv : GoString × Json) :
    Option RawMetadata :=
  let key := toValidUTF8 kv.1
  if fieldIs "worktrees" key then
    (decodeMap timeUnmarshal m.Worktrees kv.2).map (fun ws => { m with Worktrees := ws })
  else if fieldIs "mainline" key then
    (decodeString m.Mainline kv.2).map (fun s => { m with Mainline := s })
  else some m

/-- Go `json.Unmarshal(data, &meta)` for a zero `meta`, on the contents of a
file; `none` is an error: the text is not JSON, or a value has the wrong type
for its field, or a time does not parse. -/
def unmarshalMetadata (timeUnmarshal : GoString → Option Time) : FileData → Option RawMetadata
  | FileData.text _ => none
  | FileData.json Json.null => some ⟨none, []⟩
  | FileData.json (Json.object fields) => decodeFields (decodeMetadataField timeUnmarshal) ⟨none, []⟩ fields
  | FileData.json _ => none

/-- Load of config/config.go: reads the metadata file of the repository. If
the file does not exist, returns an empty Metadata. -/
def Load (w : World) (repoPath : GoString) : Except Error Metadata :=
  let path := metadataPath repoPath
  match w.readFile path with
  | ReadResult.notExist => .ok ⟨∅, []⟩
  | ReadResult.failed => .error (Error.wrapf "failed to read metadata: %w" [] Error.external)
  | ReadResult.ok data =>
    match unmarshalMetadata w.timeUnmarshal data with
    | none => .error (Error.wrapf "failed to parse metadata: %w" [] Error.external)
    | some meta =>
      match meta.Worktrees with
      | none => .ok ⟨∅, meta.Mainline⟩
      | some ws => .ok ⟨ws, meta.Mainline⟩

/-- Save of config/config.go: writes the metadata to the repository. -/
def Save (w : World) (repoPath : GoString) (m : Metadata) : Outcome Unit :=
  let path := metadataPath repoPath
  match marshalMetadata w.timeMarshal m with
  | none => (.error (Error.wrapf "failed to marshal metadata: %w" [] Error.external), w)
  | some data =>
    match w.writeFile path data with
    | (.error err, w2) => (.error (Error.wrapf "failed to write metadata: %w" [] err), w2)
    | (.ok _, w2) => (.ok (), w2)

/-- AddWorktree of config/config.go: adds a new worktree entry to the
metadata; `now` is the reading of the clock. -/
def Metadata.AddWorktree (m : Metadata) (now : Time) (ticket path branch : GoString) : Metadata :=
  let entry : WorktreeEntry := { Path := path, Branch := branch, Created := now, Ticket := ticket }
  { m with Worktrees := m.Worktrees.insert ticket entry }

/-- RemoveWorktree of config/config.go. -/
def Metadata.RemoveWorktree (m : Metadata) (ticket : GoString) : Metadata :=
  { m with Worktrees := m.Worktrees.erase ticket }

/-- GetWorktree of config/config.go: the entry of a ticket, when there is
one. -/
def Metadata.GetWorktree (m : Metadata) (ticket : GoString) : Option WorktreeEntry :=
  m.Worktrees.lookup ticket

/-- HasWorktree of config/config.go. -/
def Metadata.HasWorktree (m : Metadata) (ticket : GoString) : Bool :=
  (m.Worktrees.lookup ticket).isSome

/-! ## Package util: locating the repository -/

/-- getPrimaryRepoFromWorktree of util/paths.go: reads the .git file of a
worktree, of the form `gitdir: /path/to/primary/.git/worktrees/name`, to find
the primary repository. A JSON text never starts with `gitdir: `. -/
def getPrimaryRepoFromWorktree (w : World) (gitFilePath : GoString) : Except Error GoString :=
  match w.readFile gitFilePath with
  | ReadResult.ok (FileData.text gitdir) =>
    if gitdir.length < 8 ∨ gitdir.take 8 ≠ lit "gitdir: " then
      .error (Error.errorf "invalid .git file format" [])
    else
      let worktreePath := Clean (gitdir.drop 8)
      let worktreePath :=
        if worktreePath.length > 0 ∧ worktreePath.getLast? = some 10 then worktreePath.dropLast
        else worktreePath
      let gitDir := Dir (Dir worktreePath)
      let primaryRepo := Dir gitDir
      .ok primaryRepo
  | ReadResult.ok (FileData.json _) => .error (Error.errorf "invalid .git file format" [])
  | _ => .error (Error.wrapf "failed to read .git file: %w" [] Error.external)

/-- The loop of GetPrimaryRepoPath: walk upward from `dir` to find `.git`.
Each round either returns or moves to the parent directory; `fuel` bounds the
number of rounds. -/
def primaryRepoWalk (w : World) : Nat → GoString → Except Error GoString
  | 0, _ => .error (Error.errorf "not in a git repository" [])
  | fuel + 1, dir =>
    let gitPath := Join [dir, lit ".git"]
    match w.stat gitPath with
    | some isDir =>
      if isDir then .ok dir else getPrimaryRepoFromWorktree w gitPath
    | none =>
      let parent := Dir dir
      if parent = dir then .error (Error.errorf "not in a git repository" [])
      else primaryRepoWalk w fuel parent

/-- The number of rounds the upward walk needs at most from `dir`: every
round but the last two shortens the directory. -/
def walkFuel (dir : GoString) : Nat := dir.length + 2

/-- GetPrimaryRepoPath of util/paths.go: the path of the primary git
repository, found by searching upward from the current directory. -/
def GetPrimaryRepoPath (w : World) : Except Error GoString :=
  match w.cwd with
  | none => .error (Error.wrapf "failed to get current directory: %w" [] Error.external)
  | some cwd => primaryRepoWalk w (walkFuel cwd) cwd

/-- The loop of IsInWorktree. -/
def inWorktreeWalk (w : World) : Nat → GoString → Except Error Bool
  | 0, _ => .error (Error.errorf "not in a git repository" [])
  | fuel + 1, dir =>
    let gitPath := Join [dir, lit ".git"]
    match w.stat gitPath with
    | some isDir => .ok (!isDir)
    | none =>
      let parent := Dir dir
      if parent = dir then .error (Error.errorf "not in a git repository" [])
      else inWorktreeWalk w fuel parent

/-- IsInWorktree of util/paths.go: whether the current directory is inside a
worktree (not the primary repository). -/
def IsInWorktree (w : World) : Except Error Bool :=
  match w.cwd with
  | none => .error (Error.wrapf "failed to get current directory: %w" [] Error.external)
  | some cwd => inWorktreeWalk w (walkFuel cwd) cwd

/-! ## Package git -/

/-- Repo of git/repo.go: a git repository, given by its path. -/
structure Repo where
  Path : GoString
deriving DecidableEq

/-- NewRepo of git/repo.go. -/
def NewRepo (path : GoString) : Repo := ⟨path⟩

/-- The fallback of DetectMainline: the first of the common branch names that
exists at the remote. -/
def detectFallback (r : Repo) : List GoString → World → Outcome GoString
  | [], w => (.error (Error.errorf "could not detect mainline branch" []), w)
  | branch :: rest, w =>
    let run := w.runGit r.Path [lit "rev-parse", lit "--verify", lit "origin/" ++ branch]
    if run.1.ok then (.ok branch, run.2) else detectFallback r rest run.2

/-- DetectMainline of git/repo.go: the mainline branch name from the remote,
by origin's HEAD and else by the common names. -/
def Repo.DetectMainline (r : Repo) (w : World) : Outcome GoString :=
  let run := w.runGit r.Path [lit "rev-parse", lit "--abbrev-ref", lit "origin/HEAD"]
  let fallback := detectFallback r [lit "main", lit "master", lit "develop"] run.2
  if run.1.ok then
    let branch := TrimSpace run.1.stdout
    if branch ≠ [] then
      let parts := splitOn slash branch
      if parts.length = 2 then (.ok (parts.getD 1 []), run.2) else fallback
    else fallback
  else fallback

/-- Fetch of git/repo.go. -/
def Repo.Fetch (r : Repo) (w : World) : Outcome Unit :=
  let run := w.runGit r.Path [lit "fetch", lit "origin"]
  if run.1.ok then (.ok (), run.2)
  else (.error (Error.wrapf "git fetch failed: %w\n%s" [run.1.combined] Error.external), run.2)

/-- GetStatus of git/repo.go: the porcelain status output. -/
def Repo.GetStatus (r : Repo) (w : World) : Outcome GoString :=
  let run := w.runGit r.Path [lit "status", lit "--porcelain"]
  if run.1.ok then (.ok run.1.stdout, run.2)
  else (.error (Error.wrapf "git status failed: %w" [] Error.external), run.2)

/-- IsClean of git/repo.go: true if the repository has no uncommitted
changes. -/
def Repo.IsClean (r : Repo) (w : World) : Outcome Bool :=
  match r.GetStatus w with
  | (.error err, w1) => (.error err, w1)
  | (.ok status, w1) => (.ok (decide (TrimSpace status = [])), w1)

/-- DeleteBranch of git/repo.go. -/
def Repo.DeleteBranch (r : Repo) (branch : GoString) (w : World) : Outcome Unit :=
  let run := w.runGit r.Path [lit "branch", lit "-D", branch]
  if run.1.ok then (.ok (), run.2)
  else (.error (Error.wrapf "failed to delete branch: %w\n%s" [run.1.combined] Error.external),
    run.2)

/-- Rebase of git/repo.go. -/
def Repo.Rebase (r : Repo) (target : GoString) (w : World) : Outcome Unit :=
  let run := w.runGit r.Path [lit "rebase", target]
  if run.1.ok then (.ok (), run.2)
  else (.error (Error.wrapf "rebase failed: %w\n%s%s" [run.1.stdout, run.1.stderr]
    Error.external), run.2)

/-- WorktreeInfo of git/worktree.go. -/
structure WorktreeInfo where
  Path : GoString
  Branch : GoString
  Commit : GoString
  IsPrimary : Bool
deriving DecidableEq, Repr

/-- The zero value of WorktreeInfo. -/
def WorktreeInfo.zero : WorktreeInfo := ⟨[], [], [], false⟩

/-- One round of the line loop of ListWorktrees, on the worktrees found so far
and the one being read. -/
def parseWorktreeLine (acc : List WorktreeInfo × WorktreeInfo) (rawLine : GoString) :
    List WorktreeInfo × WorktreeInfo :=
  let line := TrimSpace rawLine
  if line = [] then
    if acc.2.Path ≠ [] then (acc.1 ++ [acc.2], WorktreeInfo.zero) else acc
  else
    match cutLeading (lit "worktree ") line with
    | some path => (acc.1, { acc.2 with Path := path })
    | none =>
      match cutLeading (lit "HEAD ") line with
      | some commit => (acc.1, { acc.2 with Commit := commit })
      | none =>
        match cutLeading (lit "branch ") line with
        | some branch =>
          match cutLeading (lit "refs/heads/") branch with
          | some branchName => (acc.1, { acc.2 with Branch := branchName })
          | none => (acc.1, { acc.2 with Branch := branch })
        | none =>
          if line = lit "bare" then (acc.1, { acc.2 with IsPrimary := true }) else acc

/-- The end of ListWorktrees: the first worktree is marked as primary if none
is marked. -/
def markPrimary (worktrees : List WorktreeInfo) : List WorktreeInfo :=
  match worktrees with
  | [] => []
  | first :: rest =>
    if worktrees.any (fun wt => wt.IsPrimary) then worktrees
    else { first with IsPrimary := true } :: rest

/-- The worktrees ListWorktrees collects from the lines of the output of
`git worktree list --porcelain`, before it looks for the primary one. -/
def collectWorktrees (output : GoString) : List WorktreeInfo :=
  let lines := splitOn 10 output
  let acc := lines.foldl parseWorktreeLine ([], WorktreeInfo.zero)
  if acc.2.Path ≠ [] then acc.1 ++ [acc.2] else acc.1

/-- The worktrees ListWorktrees reads from the output of
`git worktree list --porcelain`. -/
def parseWorktrees (output : GoString) : List WorktreeInfo :=
  markPrimary (collectWorktrees output)

/-- ListWorktrees of git/worktree.go: all worktrees of the repository. -/
def Repo.ListWorktrees (r : Repo) (w : World) : Outcome (List WorktreeInfo) :=
  let run := w.runGit r.Path [lit "worktree", lit "list", lit "--porcelain"]
  if run.1.ok then (.ok (parseWorktrees run.1.stdout), run.2)
  else (.error (Error.wrapf "failed to list worktrees: %w" [] Error.external), run.2)

/-- AddWorktree of git/worktree.go: creates a new worktree at the path, on a
new branch from the start point, after making the parent directory. -/
def Repo.AddWorktree (r : Repo) (path branch startPoint : GoString) (w : World) : Outcome Unit :=
  let w1 : World := { w with log := w.log ++ [Event.mkdirAll (Dir path)] }
  if w.mkdirOk (Dir path) then
    let run := w1.runGit r.Path [lit "worktree", lit "add", lit "-b", branch, path, startPoint]
    if run.1.ok then (.ok (), run.2)
    else (.error (Error.wrapf "failed to add worktree: %w\n%s" [run.1.combined] Error.external),
      run.2)
  else
    (.error (Error.wrapf "failed to create worktree parent directory: %w" [] Error.external), w1)

/-- RemoveWorktree of git/worktree.go. -/
def Repo.RemoveWorktree (r : Repo) (path : GoString) (w : World) : Outcome Unit :=
  let run := w.runGit r.Path [lit "worktree", lit "remove", path]
  if run.1.ok then (.ok (), run.2)
  else (.error (Error.wrapf "failed to remove worktree: %w\n%s" [run.1.combined] Error.external),
    run.2)

/-- PruneWorktrees of git/worktree.go. -/
def Repo.PruneWorktrees (r : Repo) (w : World) : Outcome Unit :=
  let run := w.runGit r.Path [lit "worktree", lit "prune"]
  if run.1.ok then (.ok (), run.2)
  else (.error (Error.wrapf "failed to prune worktrees: %w\n%s" [run.1.combined] Error.external),
    run.2)

/-! ## Package cmd -/

/-- Create of cmd/create.go: creates a new worktree for the ticket. -/
def Create (args : List GoString) (w : World) : Outcome Unit :=
  match args with
  | [] => (.error (Error.errorf "usage: git tree create <ticket-id> [branch-name]" []), w)
  | ticketID :: more =>
    let branchName := match more with
      | name :: _ => name
      | [] => ticketID
    -- Get primary repo path
    match GetPrimaryRepoPath w with
    | .error err => (.error (Error.wrapf "failed to find primary repository: %w" [] err), w)
    | .ok repoPath =>
      -- Check if we are in a worktree (should be in primary repo)
      match IsInWorktree w with
      | .error err => (.error err, w)
      | .ok true =>
        (.error (Error.errorf
          "must be in primary repository to create worktree (not in an existing worktree)" []), w)
      | .ok false =>
        -- Load metadata
        match Load w repoPath with
        | .error err => (.error (Error.wrapf "failed to load metadata: %w" [] err), w)
        | .ok meta =>
          -- Check if worktree already exists
          if meta.HasWorktree ticketID then
            let entry := (meta.Worktrees.lookup ticketID).getD WorktreeEntry.zero
            (.error (Error.errorf "worktree for %s already exists at %s" [ticketID, entry.Path]), w)
          else
            let repo := NewRepo repoPath
            -- Detect mainline if not set
            let detected : Outcome Metadata :=
              if meta.Mainline = [] then
                match repo.DetectMainline w with
                | (.error err, w1) =>
                  (.error (Error.wrapf "failed to detect mainline branch: %w" [] err), w1)
                | (.ok mainline, w1) => (.ok { meta with Mainline := mainline }, w1)
              else (.ok meta, w)
            match detected with
            | (.error err, w1) => (.error err, w1)
            | (.ok meta, w1) =>
              -- Fetch latest
              match repo.Fetch w1 with
              | (.error err, w2) => (.error (Error.wrapf "failed to fetch: %w" [] err), w2)
              | (.ok _, w2) =>
                -- Calculate worktree path
                let worktreePath := GetWorktreePath repoPath ticketID
                -- Check if path already exists
                if (w2.stat worktreePath).isSome then
                  (.error (Error.errorf "path already exists: %s" [worktreePath]), w2)
                else
                  -- Create worktree
                  let startPoint := lit "origin/" ++ meta.Mainline
                  match repo.AddWorktree worktreePath branchName startPoint w2 with
                  | (.error err, w3) => (.error err, w3)
                  | (.ok _, w3) =>
                    -- Save metadata
                    let meta := meta.AddWorktree w3.now ticketID worktreePath branchName
                    match Save w3 repoPath meta with
                    | (.error err, w4) =>
                      (.error (Error.wrapf "failed to save metadata: %w" [] err), w4)
                    | (.ok _, w4) => (.ok (), w4)

/-- Delete of cmd/delete.go: removes a worktree and cleans up its branch. -/
def Delete (args : List GoString) (w : World) : Outcome Unit :=
  match args with
  | [] => (.error (Error.errorf "usage: git tree delete <ticket-id>" []), w)
  | ticketID :: _ =>
    match GetPrimaryRepoPath w with
    | .error err => (.error (Error.wrapf "failed to find primary repository: %w" [] err), w)
    | .ok repoPath =>
      match Load w repoPath with
      | .error err => (.error (Error.wrapf "failed to load metadata: %w" [] err), w)
      | .ok meta =>
        -- Check if worktree exists
        match meta.GetWorktree ticketID with
        | none => (.error (Error.errorf "worktree for %s not found" [ticketID]), w)
        | some entry =>
          let repo := NewRepo repoPath
          -- Check if worktree has uncommitted changes
          let wtRepo := NewRepo entry.Path
          let checked := wtRepo.IsClean w
          let confirmed : Outcome Unit :=
            match checked with
            | (.ok false, w1) =>
              let w2 : World := { w1 with log := w1.log ++ [Event.readLine] }
              let response := w1.stdin
              if response ≠ lit "y" ∧ response ≠ lit "Y" then
                (.error (Error.errorf "deletion cancelled" []), w2)
              else (.ok (), w2)
            | (_, w1) => (.ok (), w1)
          match confirmed with
          | (.error err, w2) => (.error err, w2)
          | (.ok _, w2) =>
            -- Remove worktree
            match repo.RemoveWorktree entry.Path w2 with
            | (.error err, w3) =>
              (.error (Error.wrapf "failed to remove worktree: %w" [] err), w3)
            | (.ok _, w3) =>
              -- Delete branch; a failure is not an error of Delete
              let w4 := (repo.DeleteBranch entry.Branch w3).2
              -- Update metadata
              let meta := meta.RemoveWorktree ticketID
              match Save w4 repoPath meta with
              | (.error err, w5) =>
                (.error (Error.wrapf "failed to save metadata: %w" [] err), w5)
              | (.ok _, w5) => (.ok (), w5)

/-- Update of cmd/update.go: updates a worktree by rebasing it onto the latest
mainline. -/
def Update (args : List GoString) (w : World) : Outcome Unit :=
  match args with
  | [] => (.error (Error.errorf "usage: git tree update <ticket-id>" []), w)
  | ticketID :: _ =>
    match GetPrimaryRepoPath w with
    | .error err => (.error (Error.wrapf "failed to find primary repository: %w" [] err), w)
    | .ok repoPath =>
      match Load w repoPath with
      | .error err => (.error (Error.wrapf "failed to load metadata: %w" [] err), w)
      | .ok meta =>
        match meta.GetWorktree ticketID with
        | none => (.error (Error.errorf "worktree for %s not found" [ticketID]), w)
        | some entry =>
          if meta.Mainline = [] then
            (.error (Error.errorf "mainline branch not set in metadata" []), w)
          else
            -- Check if worktree is clean
            let wtRepo := NewRepo entry.Path
            match wtRepo.IsClean w with
            | (.error err, w1) =>
              (.error (Error.wrapf "failed to check worktree status: %w" [] err), w1)
            | (.ok false, w1) =>
              (.error (Error.errorf
                "worktree has uncommitted changes, please commit or stash them first" []), w1)
            | (.ok true, w1) =>
              -- Fetch latest
              let repo := NewRepo repoPath
              match repo.Fetch w1 with
              | (.error err, w2) => (.error (Error.wrapf "failed to fetch: %w" [] err), w2)
              | (.ok _, w2) =>
                -- Rebase onto mainline
                let target := lit "origin/" ++ meta.Mainline
                match wtRepo.Rebase target w2 with
                | (.error err, w3) => (.error err, w3)
                | (.ok _, w3) => (.ok (), w3)

/-- The map of existing worktree paths that Prune builds from the worktrees
git lists; a path that has no absolute form is left out. -/
def existingPathsOf (cwd : Option GoString) (worktrees : List WorktreeInfo) :
    AList (fun _ : GoString => Bool) :=
  worktrees.foldl
    (fun existingPaths wt =>
      match Abs cwd wt.Path with
      | some absPath => existingPaths.insert absPath true
      | none => existingPaths)
    ∅

/-- The stale tickets Prune finds: those of the entries, in the order of the
loop over the map, whose path has no absolute form or is not among the
existing paths. -/
def staleTicketsOf (cwd : Option GoString) (existingPaths : AList (fun _ : GoString => Bool))
    (entries : List (Sigma (fun _ : GoString => WorktreeEntry))) : List GoString :=
  entries.foldl
    (fun staleTickets kv =>
      match Abs cwd kv.2.Path with
      | none => staleTickets ++ [kv.1]
      | some absPath =>
        if (existingPaths.lookup absPath).getD false then staleTickets
        else staleTickets ++ [kv.1])
    []

/-- The loop of Prune that removes the stale tickets from the metadata. -/
def removeTickets (meta : Metadata) (staleTickets : List GoString) : Metadata :=
  staleTickets.foldl (fun m ticketID => m.RemoveWorktree ticketID) meta

/-- Prune of cmd/prune.go: removes stale metadata entries and orphaned
worktrees. -/
def Prune (_args : List GoString) (w : World) : Outcome Unit :=
  match GetPrimaryRepoPath w with
  | .error err => (.error (Error.wrapf "failed to find primary repository: %w" [] err), w)
  | .ok repoPath =>
    match Load w repoPath with
    | .error err => (.error (Error.wrapf "failed to load metadata: %w" [] err), w)
    | .ok meta =>
      -- Get git worktrees
      let repo := NewRepo repoPath
      match repo.ListWorktrees w with
      | (.error err, w1) => (.error (Error.wrapf "failed to list worktrees: %w" [] err), w1)
      | (.ok worktrees, w1) =>
        -- Build map of existing worktree paths
        let existingPaths := existingPathsOf w1.cwd worktrees
        -- Find stale metadata entries
        let staleTickets := staleTicketsOf w1.cwd existingPaths meta.Worktrees.entries
        let saved : Outcome Unit :=
          if staleTickets.length = 0 then (.ok (), w1)
          else
            match Save w1 repoPath (removeTickets meta staleTickets) with
            | (.error err, w2) =>
              (.error (Error.wrapf "failed to save metadata: %w" [] err), w2)
            | (.ok _, w2) => (.ok (), w2)
        match saved with
        | (.error err, w2) => (.error err, w2)
        | (.ok _, w2) =>
          -- Prune git worktrees
          match repo.PruneWorktrees w2 with
          | (.error err, w3) => (.error (Error.wrapf "failed to prune worktrees: %w" [] err), w3)
          | (.ok _, w3) => (.ok (), w3)

/-! ## Packages git and cmd: the listing -/

/-- GetCommitCount of git/repo.go: the number of commits ahead and behind
between branch and target. -/
def Repo.GetCommitCount (r : Repo) (branch target : GoString) (w : World) :
    Outcome (Int × Int) :=
  let run := w.runGit r.Path
    [lit "rev-list", lit "--left-right", lit "--count", branch ++ lit "..." ++ target]
  if run.1.ok then
    match w.scanCounts (TrimSpace run.1.stdout) with
    | some counts => (.ok counts, run.2)
    | none => (.error (Error.wrapf "failed to parse commit count: %w" [] Error.external), run.2)
  else (.error (Error.wrapf "failed to get commit count: %w" [] Error.external), run.2)

/-- The map of existing worktree paths that List builds from the worktrees
git lists; a path that has no absolute form is left out. -/
def existingWorktreesOf (cwd : Option GoString) (worktrees : List WorktreeInfo) :
    AList (fun _ : GoString => WorktreeInfo) :=
  worktrees.foldl
    (fun existingPaths wt =>
      match Abs cwd wt.Path with
      | some absPath => existingPaths.insert absPath wt
      | none => existingPaths)
    ∅

/-- Go `fmt.Sprintf("%d", n)`. -/
def formatInt (n : Int) : GoString := lit (toString n)

/-- Go `fmt.Sprintf("%s (↑%d ↓%d)", status, ahead, behind)`; the arrows are
U+2191 and U+2193. -/
def withCounts (status : GoString) (ahead behind : Int) : GoString :=
  status ++ lit " (" ++ [0xE2, 0x86, 0x91] ++ formatInt ahead ++ lit " "
    ++ [0xE2, 0x86, 0x93] ++ formatInt behind ++ lit ")"

/-- The status List shows for one entry: the body of its loop up to the row
it prints. `cwd` is the working directory as `filepath.Abs` finds it. -/
def listStatus (cwd : Option GoString) (existingPaths : AList (fun _ : GoString => WorktreeInfo))
    (mainline : GoString) (entry : WorktreeEntry) (w : World) : GoString × World :=
  match Abs cwd entry.Path with
  | none => (lit "?", w)
  | some absPath =>
    match existingPaths.lookup absPath with
    | none => (lit "STALE", w)
    | some wtInfo =>
      -- Check if worktree is clean
      let wtRepo := NewRepo wtInfo.Path
      match wtRepo.IsClean w with
      | (.error _, w1) => (lit "?", w1)
      | (.ok clean, w1) =>
        let status := if clean then lit "clean" else lit "dirty"
        -- Check ahead/behind of mainline
        if mainline ≠ [] then
          match wtRepo.GetCommitCount wtInfo.Branch (lit "origin/" ++ mainline) w1 with
          | (.ok counts, w2) =>
            if counts.1 > 0 ∨ counts.2 > 0 then (withCounts status counts.1 counts.2, w2)
            else (status, w2)
          | (.error _, w2) => (status, w2)
        else (status, w1)

/-- A row of the table List prints. -/
structure ListRow where
  ticket : GoString
  branch : GoString
  status : GoString
  path : GoString
deriving DecidableEq, Repr

/-- The loop of List over the entries of the registry: the rows, in the
order of the loop. -/
def listRows (cwd : Option GoString) (existingPaths : AList (fun _ : GoString => WorktreeInfo))
    (mainline : GoString) :
    List (Sigma (fun _ : GoString => WorktreeEntry)) → World → List ListRow × World
  | [], w => ([], w)
  | kv :: rest, w =>
    let shown := listStatus cwd existingPaths mainline kv.2 w
    let more := listRows cwd existingPaths mainline rest shown.2
    (⟨kv.1, kv.2.Branch, shown.1, kv.2.Path⟩ :: more.1, more.2)

/-- List of cmd/list.go, under the name `cmdList` (Lean's lists have the name
`List`): displays all worktrees for the repository. The value is the rows of
the table below its header; there is none when the registry is empty. -/
def cmdList (_args : List GoString) (w : World) : Outcome (List ListRow) :=
  match GetPrimaryRepoPath w with
  | .error err => (.error (Error.wrapf "failed to find primary repository: %w" [] err), w)
  | .ok repoPath =>
    match Load w repoPath with
    | .error err => (.error (Error.wrapf "failed to load metadata: %w" [] err), w)
    | .ok meta =>
      -- Get git worktrees
      let repo := NewRepo repoPath
      match repo.ListWorktrees w with
      | (.error err, w1) => (.error (Error.wrapf "failed to list worktrees: %w" [] err), w1)
      | (.ok worktrees, w1) =>
        -- Build map of existing worktree paths
        let existingPaths := existingWorktreesOf w1.cwd worktrees
        if meta.Worktrees.entries.length = 0 then (.ok [], w1)
        else
          -- Display worktrees
          let rows := listRows w1.cwd existingPaths meta.Mainline meta.Worktrees.entries w1
          (.ok rows.1, rows.2)

/-! ## Notions used in the statements -/

/-- An entry of the registry is stale: its stored path, made absolute, is not
the absolute path of any live worktree. -/
def StaleEntry (cwd : Option GoString) (worktrees : List WorktreeInfo) (e : WorktreeEntry) :
    Prop :=
  ∀ a, Abs cwd e.Path = some a → ∀ wt ∈ worktrees, Abs cwd wt.Path ≠ some a

/-- A run of `git rev-parse` in the directory: the only runs of git that
mainline detection makes. -/
def IsRevParse (dir : GoString) (e : Event) : Prop :=
  ∃ rest, e = Event.exec dir (lit "rev-parse" :: rest)

/-- An entry that the metadata file holds without loss: its strings are valid
UTF-8, and the text its time is written as reads back as the same time. -/
def WorktreeEntry.Storable (timeMarshal : Time → Option GoString)
    (timeUnmarshal : GoString → Option Time) (e : WorktreeEntry) : Prop :=
  ValidUTF8 e.Path = true ∧ ValidUTF8 e.Branch = true ∧ ValidUTF8 e.Ticket = true
    ∧ ∀ s, timeMarshal e.Created = some s → timeUnmarshal s = some e.Created

/-- A registry that the metadata file holds without loss: the mainline and
the tickets are valid UTF-8 and every entry is storable. -/
def Metadata.Storable (timeMarshal : Time → Option GoString)
    (timeUnmarshal : GoString → Option Time) (m : Metadata) : Prop :=
  ValidUTF8 m.Mainline = true
    ∧ ∀ t e, m.GetWorktree t = some e →
        ValidUTF8 t = true ∧ e.Storable timeMarshal timeUnmarshal

/-- The size of a list of path elements as text: each element counts with
its bytes and one separator. -/
def pathCost (cs : List GoString) : Nat := (cs.map (fun c => c.length + 1)).sum

/-- A bound on the number of rounds the upward walk still makes from `dir`
after the first: a directory with a separator is shortened by every round,
one without moves to `.`, and `.` stays. -/
def walkRank (dir : GoString) : Nat :=
  if slash ∈ dir then dir.length + 1 else if dir = lit "." then 0 else 1

/-- The registry Prune keeps: the loaded one without the tickets it finds
stale against the worktrees listed. -/
def prunedRegistry (cwd : Option GoString) (worktrees : List WorktreeInfo) (m : Metadata) :
    Metadata :=
  removeTickets m (staleTicketsOf cwd (existingPathsOf cwd worktrees) m.Worktrees.entries)

/-- The directory `k` steps up from `dir`: `dir` itself, its parent
`filepath.Dir(dir)`, the parent of that, and so on. -/
def ancestor (dir : GoString) (k : Nat) : GoString := Dir^[k] dir

/-- The path of the `.git` marker in a directory. -/
def markerPath (dir : GoString) : GoString := Join [dir, lit ".git"]

/-- The arguments of the query of the remote's default branch pointer. -/
def headQuery : List GoString := [lit "rev-parse", lit "--abbrev-ref", lit "origin/HEAD"]

/-- The arguments of the probe for a branch at the remote. -/
def probeArgs (branch : GoString) : List GoString :=
  [lit "rev-parse", lit "--verify", lit "origin/" ++ branch]

/-- The world after mainline detection in `r` has run the query of the
pointer and then the probes for the branches `probed`, in that order. -/
def afterProbes (w : World) (r : Repo) (probed : List GoString) : World :=
  { w with
    log := w.log ++ Event.exec r.Path headQuery
      :: probed.map (fun b => Event.exec r.Path (probeArgs b)) }

/-- The branch exists at the remote: the probe for it succeeds, run after the
query of the pointer and the probes for the branches `earlier`. -/
def probeOk (w : World) (r : Repo) (earlier : List GoString) (branch : GoString) : Bool :=
  ((afterProbes w r earlier).git (afterProbes w r earlier).log r.Path (probeArgs branch)).ok

/-- The answer to the query of the pointer is one DetectMainline takes a
branch from: the query succeeded and its output, white space trimmed, has
exactly two parts around one separator. -/
def pointerUsable (res : ExecResult) : Prop :=
  res.ok = true ∧ (splitOn slash (TrimSpace res.stdout)).length = 2

/-! ## Example worlds -/

/-- The JSON object of a registry entry with the time text `t`. -/
def exampleEntryDoc (ticket path : String) : Json :=
  Json.object [
    (lit "path", Json.str (lit path)),
    (lit "branch", Json.str (lit ticket)),
    (lit "created", Json.str (lit "t")),
    (lit "ticket", Json.str (lit ticket))]

/-- A world at the primary repository `/r` whose registry holds the tickets A
(at `/w/A`) and B (at `/w/B`) and where git lists the worktrees `/r` and
`/w/A` only. -/
def worldAB : World where
  cwd := some (lit "/r")
  stat := fun p => if p = lit "/r/.git" then some true else none
  readFile := fun p =>
    if p = lit "/r/.git/worktree-metadata.json" then
      ReadResult.ok (FileData.json (Json.object [
        (lit "worktrees", Json.object [
          (lit "A", exampleEntryDoc "A" "/w/A"),
          (lit "B", exampleEntryDoc "B" "/w/B")]),
        (lit "mainline", Json.str (lit "main"))]))
    else ReadResult.notExist
  writable := fun _ => true
  mkdirOk := fun _ => true
  git := fun _ _ args =>
    if args = [lit "worktree", lit "list", lit "--porcelain"] then
      ⟨true, lit "worktree /r\nHEAD abc\nbranch refs/heads/main\n\nworktree /w/A\nHEAD def\nbranch refs/heads/A\n\n", []⟩
    else ⟨true, [], []⟩
  stdin := []
  now := ⟨0⟩
  timeMarshal := fun _ => some (lit "t")
  timeUnmarshal := fun _ => some ⟨0⟩
  scanCounts := fun s => if s = lit "1\t2" then some (1, 2) else none
  log := []

/-- The registry of `worldAB`. -/
def registryAB : Metadata :=
  ⟨(AList.insert (lit "B") ⟨lit "/w/B", lit "B", ⟨0⟩, lit "B"⟩
    (AList.insert (lit "A") ⟨lit "/w/A", lit "A", ⟨0⟩, lit "A"⟩ ∅)), lit "main"⟩

/-- The worktrees git lists in `worldAB`. -/
def worktreesAB : List WorktreeInfo :=
  [⟨lit "/r", lit "main", lit "abc", true⟩, ⟨lit "/w/A", lit "A", lit "def", false⟩]

/-- A world at the primary repository `/r` with no metadata file, where the
remote's HEAD names the branch `main`. -/
def worldFresh : World where
  cwd := some (lit "/r")
  stat := fun p => if p = lit "/r/.git" then some true else none
  readFile := fun _ => ReadResult.notExist
  writable := fun _ => true
  mkdirOk := fun _ => true
  git := fun _ _ args =>
    if args = [lit "rev-parse", lit "--abbrev-ref", lit "origin/HEAD"] then
      ⟨true, lit "origin/main\n", []⟩
    else ⟨true, [], []⟩
  stdin := []
  now := ⟨0⟩
  timeMarshal := fun _ => some (lit "t")
  timeUnmarshal := fun _ => some ⟨0⟩
  scanCounts := fun s => if s = lit "1\t2" then some (1, 2) else none
  log := []

/-- The world `worldAB` with the path derived for the ticket T1 already on
disk. -/
def worldCollision : World :=
  { worldAB with
    stat := fun p =>
      if p = lit "/r/.git" ∨ p = lit "/worktrees/r/T1" then some true else none }

/-- The world `worldAB` with the worktree of A holding uncommitted changes. -/
def worldDirty : World :=
  { worldAB with
    git := fun _ dir args =>
      if args = [lit "status", lit "--porcelain"] ∧ dir = lit "/w/A" then
        ⟨true, lit " M file.go\n", []⟩
      else ⟨true, [], []⟩ }

/-- The world `worldAB` where the deletion of a branch fails. -/
def worldBranchGone : World :=
  { worldAB with
    git := fun _ _ args =>
      if args.take 2 = [lit "branch", lit "-D"] then ⟨false, [], lit "error: branch not found"⟩
      else ⟨true, [], []⟩ }

/-- The world `worldAB` where no file can be written. -/
def worldReadOnly : World :=
  { worldAB with writable := fun _ => false }

/-- A world inside the linked worktree `/w/A` of the repository `/r`. -/
def worldLinked : World :=
  { worldAB with
    cwd := some (lit "/w/A")
    stat := fun p => if p = lit "/w/A/.git" then some false else none
    readFile := fun p =>
      if p = lit "/w/A/.git" then
        ReadResult.ok (FileData.text (lit "gitdir: /r/.git/worktrees/A\n"))
      else worldAB.readFile p }

/-- The registry after `git tree create` with a ticket of the one byte 0xFF,
which is not valid UTF-8. -/
def registryBadTicket : Metadata :=
  ⟨AList.insert [0xFF] ⟨lit "/worktrees/r/" ++ [0xFF], [0xFF], ⟨0⟩, [0xFF]⟩ ∅, lit "main"⟩

/-- The world `worldAB` where the remote's HEAD answers with the text `out`
and the remote has the branches `avail`. -/
def worldPointer (out : String) (avail : List String) : World :=
  { worldAB with
    git := fun _ _ args =>
      if args = headQuery then ⟨true, lit out, []⟩
      else ⟨avail.any (fun b => args = probeArgs (lit b)), [], []⟩ }

/-- The world `worldAB` entered two directories below the repository. -/
def worldDeep : World :=
  { worldAB with cwd := some (lit "/r/sub/dir") }

/-- The world `worldAB` where the backend's own prune succeeds once only:
`git worktree prune` fails when it has run before. -/
def worldPruneOnce : World :=
  { worldAB with
    git := fun log dir args =>
      if args = [lit "worktree", lit "prune"] then
        if log.any (fun e =>
            match e with
            | Event.exec _ earlier => earlier = args
            | _ => false) then ⟨false, [], lit "fatal: cannot lock"⟩
        else ⟨true, [], []⟩
      else worldAB.git log dir args }

/-- The world `worldLinked` with the given contents of the pointer file
`/w/A/.git`. -/
def worldPointerFile (content : GoString) : World :=
  { worldLinked with
    readFile := fun p =>
      if p = lit "/w/A/.git" then ReadResult.ok (FileData.text content)
      else worldAB.readFile p }

/-! # Theorems -/

/-! ## Paths -/

theorem splitOn_ne_nil (sep : Nat) (s : GoString) : splitOn sep s ≠ [] := by
  induction s with
  | nil => simp [splitOn]
  | cons b rest ih =>
    unfold splitOn
    split
    · simp
    · split <;> simp

theorem splitOn_append_sep (sep : Nat) (x t : GoString) :
    splitOn sep (x ++ sep :: t) = splitOn sep x ++ splitOn sep t := by
  induction x with
  | nil => simp [splitOn]
  | cons b rest ih =>
    by_cases hb : b = sep
    · simp [splitOn, hb, ih]
    · simp only [List.cons_append, splitOn, hb, if_false, ih]
      cases hx : splitOn sep rest with
      | nil => exact absurd hx (splitOn_ne_nil sep rest)
      | cons c cs => simp [ih, hx]

theorem splitOn_no_sep (sep : Nat) (s : GoString) :
    ∀ c ∈ splitOn sep s, sep ∉ c := by
  induction s with
  | nil => simp [splitOn]
  | cons b rest ih =>
    by_cases hb : b = sep
    · simp only [splitOn, hb, if_true]
      intro c hc
      rcases List.mem_cons.1 hc with h | h
      · simp [h]
      · exact ih c h
    · simp only [splitOn, hb, if_false]
      cases hx : splitOn sep rest with
      | nil => exact absurd hx (splitOn_ne_nil sep rest)
      | cons c cs =>
        rw [hx] at ih
        intro d hd
        rcases List.mem_cons.1 hd with h | h
        · subst h
          have := ih c (List.mem_cons_self _ _)
          simp only [List.mem_cons, not_or]
          exact ⟨fun e => hb e.symm, this⟩
        · exact ih d (List.mem_cons_of_mem _ h)

/-- Splitting a separator-free piece gives the piece. -/
theorem splitOn_of_not_mem (sep : Nat) (c : GoString) (h : sep ∉ c) :
    splitOn sep c = [c] := by
  induction c with
  | nil => simp [splitOn]
  | cons b rest ih =>
    simp only [List.mem_cons, not_or] at h
    have hb : b ≠ sep := fun e => h.1 e.symm
    simp [splitOn, hb, ih h.2]

theorem splitOn_append_of_not_mem (sep : Nat) (c t : GoString) (h : sep ∉ c) :
    splitOn sep (c ++ sep :: t) = c :: splitOn sep t := by
  rw [splitOn_append_sep, splitOn_of_not_mem sep c h]; rfl

theorem splitOn_joinWith (sep : Nat) (cs : List GoString) (hne : cs ≠ [])
    (h : ∀ c ∈ cs, sep ∉ c) : splitOn sep (joinWith [sep] cs) = cs := by
  induction cs with
  | nil => exact absurd rfl hne
  | cons c rest ih =>
    cases rest with
    | nil =>
      simp [joinWith, List.intercalate, List.intersperse]
      exact splitOn_of_not_mem sep c (h c (List.mem_cons_self _ _))
    | cons d rest2 =>
      have hc := h c (List.mem_cons_self _ _)
      have ih2 := ih (by simp) (fun x hx => h x (List.mem_cons_of_mem _ hx))
      have : joinWith [sep] (c :: d :: rest2) = c ++ sep :: joinWith [sep] (d :: rest2) := by
        simp [joinWith, List.intercalate, List.intersperse]
      rw [this, splitOn_append_of_not_mem sep c _ hc, ih2]

theorem cleanStep_good (r : Bool) (S : List GoString) (c : GoString)
    (hS : GoodStack r S) (hc : slash ∉ c) : GoodStack r (cleanStep r S c) := by
  unfold cleanStep
  by_cases h1 : c = [] ∨ c = lit "."
  · simp [h1, hS]
  · rw [if_neg h1]
    push_neg at h1
    by_cases h2 : c = lit ".."
    · rw [if_pos h2]
      cases S with
      | nil =>
        cases r with
        | true => simp [GoodStack]
        | false =>
          simp only [Bool.false_eq_true, if_false]
          exact ⟨⟨h1.1, h1.2, hc⟩, fun _ => ⟨rfl, by simp⟩, trivial⟩
      | cons top below =>
        simp only
        by_cases h3 : top = lit ".."
        · rw [if_pos h3]
          cases r with
          | true => simpa using hS
          | false =>
            simp only [Bool.false_eq_true, if_false]
            refine ⟨⟨h1.1, h1.2, hc⟩, fun _ => ⟨rfl, ?_⟩, hS⟩
            intro d hd
            rcases List.mem_cons.1 hd with h | h
            · rw [h, h3]
            · exact (hS.2.1 h3).2 d h
        · rw [if_neg h3]
          exact hS.2.2
    · rw [if_neg h2]
      exact ⟨⟨h1.1, h1.2, hc⟩, fun e => absurd e h2, hS⟩

theorem foldl_cleanStep_good (r : Bool) (cs : List GoString) :
    ∀ S, GoodStack r S → (∀ c ∈ cs, slash ∉ c) →
      GoodStack r (cs.foldl (cleanStep r) S) := by
  induction cs with
  | nil => intro S hS _; simpa using hS
  | cons c rest ih =>
    intro S hS h
    simp only [List.foldl_cons]
    exact ih _ (cleanStep_good r S c hS (h c (List.mem_cons_self _ _)))
      (fun d hd => h d (List.mem_cons_of_mem _ hd))

theorem cleanStep_push (r : Bool) (c : GoString) (below : List GoString)
    (h : GoodStack r (c :: below)) : cleanStep r below c = c :: below := by
  obtain ⟨⟨h1, h2, _⟩, h4, _⟩ := h
  unfold cleanStep
  rw [if_neg (by push_neg; exact ⟨h1, h2⟩)]
  by_cases hc : c = lit ".."
  · rw [if_pos hc]
    obtain ⟨hr, hall⟩ := h4 hc
    subst hr
    cases below with
    | nil => simp
    | cons top b2 =>
      have := hall top (List.mem_cons_self _ _)
      simp [this]
  · rw [if_neg hc]

theorem foldl_cleanStep_reverse (r : Bool) (S : List GoString) (h : GoodStack r S) :
    S.reverse.foldl (cleanStep r) [] = S := by
  induction S with
  | nil => rfl
  | cons c below ih =>
    rw [List.reverse_cons, List.foldl_append, ih h.2.2]
    simp only [List.foldl_cons, List.foldl_nil]
    exact cleanStep_push r c below h

theorem GoodStack_mem (r : Bool) (S : List GoString) (h : GoodStack r S) :
    ∀ c ∈ S, c ≠ [] ∧ c ≠ lit "." ∧ slash ∉ c := by
  induction S with
  | nil => simp
  | cons c below ih =>
    intro d hd
    rcases List.mem_cons.1 hd with e | e
    · rw [e]; exact h.1
    · exact ih h.2.2 d e

theorem joinWith_cons_cons (sep : GoString) (c d : GoString) (rest : List GoString) :
    joinWith sep (c :: d :: rest) = c ++ sep ++ joinWith sep (d :: rest) := by
  simp [joinWith, List.intercalate, List.intersperse]

theorem joinWith_head (cs : List GoString) (hne : cs ≠ [])
    (h : ∀ c ∈ cs, c ≠ [] ∧ slash ∉ c) :
    ∃ b rest, joinWith [slash] cs = b :: rest ∧ b ≠ slash := by
  cases cs with
  | nil => exact absurd rfl hne
  | cons c rest =>
    obtain ⟨hc1, hc2⟩ := h c (List.mem_cons_self _ _)
    cases c with
    | nil => exact absurd rfl hc1
    | cons b c2 =>
      have hb : b ≠ slash := by
        intro e; apply hc2; simp [e]
      cases rest with
      | nil => exact ⟨b, c2, by simp [joinWith, List.intercalate, List.intersperse], hb⟩
      | cons d r2 =>
        refine ⟨b, c2 ++ [slash] ++ joinWith [slash] (d :: r2), ?_, hb⟩
        rw [joinWith_cons_cons]; simp

theorem foldl_split_render (r : Bool) (S : List GoString) (h : GoodStack r S) :
    (splitOn slash (renderPath r S)).foldl (cleanStep r) [] = S
      ∧ isRooted (renderPath r S) = r ∧ renderPath r S ≠ [] := by
  have hmem := GoodStack_mem r S h
  by_cases hS : S = []
  · subst hS
    cases r <;> decide
  · have hrev : S.reverse ≠ [] := by simpa using hS
    have hsplit : splitOn slash (joinWith [slash] S.reverse) = S.reverse :=
      splitOn_joinWith slash S.reverse hrev
        (fun c hc => (hmem c (List.mem_reverse.1 hc)).2.2)
    obtain ⟨b, rest, hb, hbs⟩ := joinWith_head S.reverse hrev
      (fun c hc => ⟨(hmem c (List.mem_reverse.1 hc)).1, (hmem c (List.mem_reverse.1 hc)).2.2⟩)
    cases r with
    | true =>
      refine ⟨?_, by simp [renderPath, isRooted], by simp [renderPath]⟩
      simp only [renderPath, if_true]
      rw [show splitOn slash (slash :: joinWith [slash] S.reverse)
            = [] :: splitOn slash (joinWith [slash] S.reverse) by simp [splitOn], hsplit]
      simp only [List.foldl_cons]
      rw [show cleanStep true [] [] = [] by decide]
      exact foldl_cleanStep_reverse true S h
    | false =>
      have hne : joinWith [slash] S.reverse ≠ [] := by rw [hb]; simp
      simp only [renderPath, Bool.false_eq_true, if_false, if_neg hne]
      refine ⟨?_, ?_, hne⟩
      · rw [hsplit]; exact foldl_cleanStep_reverse false S h
      · rw [hb]; simp [isRooted, hbs]

theorem isRooted_append (x t : GoString) (hx : x ≠ []) :
    isRooted (x ++ t) = isRooted x := by
  cases x with
  | nil => exact absurd rfl hx
  | cons b rest => simp [isRooted]

theorem Clean_of_ne (p : GoString) (hp : p ≠ []) :
    Clean p = renderPath (isRooted p) ((splitOn slash p).foldl (cleanStep (isRooted p)) []) := by
  unfold Clean; rw [if_neg hp]

theorem Clean_ne_nil (x : GoString) : Clean x ≠ [] := by
  unfold Clean
  by_cases hx : x = []
  · simp [hx, lit]
  · rw [if_neg hx]
    exact (foldl_split_render _ _ (foldl_cleanStep_good _ _ [] trivial
      (splitOn_no_sep slash x))).2.2

/-- Cleaning a prefix first does not change the cleaned path. -/
theorem Clean_append_Clean (x t : GoString) (hx : x ≠ []) :
    Clean (Clean x ++ slash :: t) = Clean (x ++ slash :: t) := by
  have hgood := foldl_cleanStep_good (isRooted x) (splitOn slash x) [] trivial
      (splitOn_no_sep slash x)
  obtain ⟨h1, h2, h3⟩ := foldl_split_render _ _ hgood
  have hC : Clean x = renderPath (isRooted x)
      ((splitOn slash x).foldl (cleanStep (isRooted x)) []) := Clean_of_ne x hx
  have e1 := Clean_of_ne (Clean x ++ slash :: t) (by simp)
  have e2 := Clean_of_ne (x ++ slash :: t) (by simp)
  rw [e1, e2, isRooted_append _ _ (Clean_ne_nil x), isRooted_append _ _ hx,
    splitOn_append_sep, splitOn_append_sep, List.foldl_append, List.foldl_append]
  rw [hC, h2, h1]

theorem Join_pair (a t : GoString) (ha : a ≠ []) :
    Join [a, t] = Clean (a ++ slash :: t) := by
  simp [Join, ha, joinWith, List.intercalate, List.intersperse]

/-- C3: GetWorktreePath is the join of the parent directory of the repository
root, `worktrees`, the basename of the root and the ticket. It is a function
of the root and the ticket alone: it takes no world, so it reads no file
system state and equal inputs give the same path. -/
theorem GetWorktreePath_eq_Join (repoPath ticketID : GoString) :
    GetWorktreePath repoPath ticketID
      = Join [Dir repoPath, lit "worktrees", Base repoPath, ticketID] := by
  have hw : lit "worktrees" ≠ [] := by decide
  unfold GetWorktreePath GetWorktreeBasePath GetRepoName
  simp only
  by_cases hd : Dir repoPath = []
  · simp only [Join, hd, if_true, if_neg hw]
    rw [show joinWith [slash] [lit "worktrees", Base repoPath, ticketID]
        = joinWith [slash] [lit "worktrees", Base repoPath] ++ slash :: ticketID by
      simp [joinWith, List.intercalate, List.intersperse]]
    rw [if_neg (Clean_ne_nil _),
      show joinWith [slash] [Clean (joinWith [slash] [lit "worktrees", Base repoPath]), ticketID]
        = Clean (joinWith [slash] [lit "worktrees", Base repoPath]) ++ slash :: ticketID by
      simp [joinWith, List.intercalate, List.intersperse]]
    exact Clean_append_Clean _ _ (by simp [joinWith, List.intercalate, List.intersperse, hw])
  · simp only [Join, hd, if_false]
    rw [show joinWith [slash] [Dir repoPath, lit "worktrees", Base repoPath, ticketID]
        = joinWith [slash] [Dir repoPath, lit "worktrees", Base repoPath] ++ slash :: ticketID by
      simp [joinWith, List.intercalate, List.intersperse]]
    rw [if_neg (Clean_ne_nil _),
      show joinWith [slash] [Clean (joinWith [slash] [Dir repoPath, lit "worktrees", Base repoPath]),
          ticketID]
        = Clean (joinWith [slash] [Dir repoPath, lit "worktrees", Base repoPath])
            ++ slash :: ticketID by
      simp [joinWith, List.intercalate, List.intersperse]]
    exact Clean_append_Clean _ _ (by simp [joinWith, List.intercalate, List.intersperse, hd])

/-! ## The registry -/

theorem existingPathsOf_foldl (cwd : Option GoString) (a : GoString)
    (worktrees : List WorktreeInfo) :
    ∀ acc : AList (fun _ : GoString => Bool),
      ((worktrees.foldl
        (fun existingPaths wt =>
          match Abs cwd wt.Path with
          | some absPath => existingPaths.insert absPath true
          | none => existingPaths) acc).lookup a).getD false = true
      ↔ ((acc.lookup a).getD false = true ∨ ∃ wt ∈ worktrees, Abs cwd wt.Path = some a) := by
  induction worktrees with
  | nil => intro acc; simp
  | cons wt rest ih =>
    intro acc
    rw [List.foldl_cons, ih]
    cases h : Abs cwd wt.Path with
    | none => simp [h]
    | some p =>
      simp only [h, List.mem_cons, exists_eq_or_imp, Option.some.injEq]
      by_cases hp : a = p
      · subst hp; simp
      · have hp2 : ¬ p = a := fun e => hp e.symm
        rw [AList.lookup_insert_ne hp]
        simp [hp2]

theorem existingPathsOf_lookup (cwd : Option GoString) (worktrees : List WorktreeInfo)
    (a : GoString) :
    ((existingPathsOf cwd worktrees).lookup a).getD false = true
      ↔ ∃ wt ∈ worktrees, Abs cwd wt.Path = some a := by
  unfold existingPathsOf
  rw [existingPathsOf_foldl]
  simp

theorem staleTicketsOf_foldl (cwd : Option GoString)
    (existingPaths : AList (fun _ : GoString => Bool))
    (entries : List (Sigma (fun _ : GoString => WorktreeEntry))) (t : GoString) :
    ∀ acc : List GoString,
      t ∈ entries.foldl
        (fun staleTickets kv =>
          match Abs cwd kv.2.Path with
          | none => staleTickets ++ [kv.1]
          | some absPath =>
            if (existingPaths.lookup absPath).getD false then staleTickets
            else staleTickets ++ [kv.1]) acc
      ↔ (t ∈ acc ∨ ∃ kv ∈ entries, kv.1 = t ∧
          ∀ a, Abs cwd kv.2.Path = some a → (existingPaths.lookup a).getD false = false) := by
  induction entries with
  | nil => intro acc; simp
  | cons kv rest ih =>
    intro acc
    rw [List.foldl_cons, ih]
    cases h : Abs cwd kv.2.Path with
    | none =>
      simp only [h, List.mem_append, List.mem_singleton, List.mem_cons, exists_eq_or_imp]
      have e : (kv.1 = t) ↔ (t = kv.1) := eq_comm
      simp only [e, reduceCtorEq, false_implies, implies_true, and_true]
      tauto
    | some p =>
      simp only [h, List.mem_cons, exists_eq_or_imp, Option.some.injEq, forall_eq']
      have e : (kv.1 = t) ↔ (t = kv.1) := eq_comm
      by_cases hx : (existingPaths.lookup p).getD false = true
      · simp only [hx, if_true, Bool.true_eq_false, and_false, false_or]
      · have hx2 : (existingPaths.lookup p).getD false = false := by simpa using hx
        simp only [hx2, Bool.false_eq_true, if_false, List.mem_append, List.mem_singleton,
          and_true, e]
        tauto

theorem removeTickets_Mainline (tickets : List GoString) :
    ∀ m : Metadata, (removeTickets m tickets).Mainline = m.Mainline := by
  induction tickets with
  | nil => intro m; rfl
  | cons t rest ih =>
    intro m
    simp only [removeTickets, List.foldl_cons] at ih ⊢
    rw [ih]; rfl

theorem removeTickets_GetWorktree (tickets : List GoString) (t : GoString) :
    ∀ m : Metadata, (removeTickets m tickets).GetWorktree t
      = if t ∈ tickets then none else m.GetWorktree t := by
  induction tickets with
  | nil => intro m; simp [removeTickets]
  | cons u rest ih =>
    intro m
    simp only [removeTickets, List.foldl_cons] at ih ⊢
    rw [ih]
    by_cases h1 : t ∈ rest
    · simp [h1]
    · by_cases h2 : t = u
      · subst h2
        simp [h1, Metadata.GetWorktree, Metadata.RemoveWorktree]
      · simp [h1, h2, Metadata.GetWorktree, Metadata.RemoveWorktree]

/-- The tickets Prune finds stale are those of the stale entries. -/
theorem mem_staleTicketsOf (cwd : Option GoString) (worktrees : List WorktreeInfo)
    (m : Metadata) (t : GoString) :
    t ∈ staleTicketsOf cwd (existingPathsOf cwd worktrees) m.Worktrees.entries
      ↔ ∃ e, m.GetWorktree t = some e ∧ StaleEntry cwd worktrees e := by
  unfold staleTicketsOf
  rw [staleTicketsOf_foldl]
  simp only [List.not_mem_nil, false_or]
  have key : ∀ e : WorktreeEntry,
      (∀ a, Abs cwd e.Path = some a → ((existingPathsOf cwd worktrees).lookup a).getD false = false)
        ↔ StaleEntry cwd worktrees e := by
    intro e
    unfold StaleEntry
    constructor
    · intro h a ha wt hwt hwa
      have := (existingPathsOf_lookup cwd worktrees a).2 ⟨wt, hwt, hwa⟩
      rw [h a ha] at this
      exact Bool.false_ne_true this
    · intro h a ha
      cases hx : ((existingPathsOf cwd worktrees).lookup a).getD false with
      | false => rfl
      | true =>
        obtain ⟨wt, hwt, hwa⟩ := (existingPathsOf_lookup cwd worktrees a).1 hx
        exact absurd hwa (h a ha wt hwt)
  constructor
  · rintro ⟨kv, hkv, rfl, hst⟩
    refine ⟨kv.2, ?_, (key kv.2).1 hst⟩
    exact AList.mem_lookup_iff.2 hkv
  · rintro ⟨e, he, hst⟩
    exact ⟨⟨t, e⟩, AList.mem_lookup_iff.1 he, rfl, (key e).2 hst⟩

/-- C10: AddWorktree sets the entry of the ticket, overwriting any earlier
one without an error, and touches nothing else: afterwards HasWorktree is
true for the ticket, GetWorktree returns an entry with the path, branch and
ticket given, every other ticket answers as before and the mainline is
unchanged. -/
theorem AddWorktree_sets_entry (m : Metadata) (now : Time) (t p b : GoString) :
    (m.AddWorktree now t p b).HasWorktree t = true
      ∧ (m.AddWorktree now t p b).GetWorktree t
          = some { Path := p, Branch := b, Created := now, Ticket := t }
      ∧ (∀ u, u ≠ t →
          (m.AddWorktree now t p b).GetWorktree u = m.GetWorktree u
            ∧ (m.AddWorktree now t p b).HasWorktree u = m.HasWorktree u)
      ∧ (m.AddWorktree now t p b).Mainline = m.Mainline := by
  refine ⟨?_, ?_, ?_, rfl⟩
  · simp [Metadata.AddWorktree, Metadata.HasWorktree]
  · simp [Metadata.AddWorktree, Metadata.GetWorktree]
  · intro u hu
    simp [Metadata.AddWorktree, Metadata.GetWorktree, Metadata.HasWorktree,
      AList.lookup_insert_ne hu]

/-- C9: Load does not fail when the metadata file is absent: it returns the
registry with an empty (made) map and an empty mainline; and when the file is
there but `json.Unmarshal` rejects its contents, Load fails with the parse
error and returns no registry. -/
theorem Load_absent_or_unparsable (w : World) (repoPath : GoString) :
    (w.readFile (metadataPath repoPath) = ReadResult.notExist →
        Load w repoPath = .ok ⟨∅, []⟩
          ∧ ∀ t, (⟨∅, []⟩ : Metadata).HasWorktree t = false)
      ∧ (∀ data, w.readFile (metadataPath repoPath) = ReadResult.ok data →
          unmarshalMetadata w.timeUnmarshal data = none →
          Load w repoPath
            = .error (Error.wrapf "failed to parse metadata: %w" [] Error.external)) := by
  constructor
  · intro h
    exact ⟨by simp [Load, h], fun t => rfl⟩
  · intro data h hu
    simp [Load, h, hu]

theorem runGit_snd (w : World) (dir : GoString) (args : List GoString) :
    (w.runGit dir args).2 = { w with log := w.log ++ [Event.exec dir args] } := rfl

theorem ListWorktrees_snd (r : Repo) (w : World) :
    (r.ListWorktrees w).2
      = { w with log := w.log ++ [Event.exec r.Path
            [lit "worktree", lit "list", lit "--porcelain"]] } := by
  unfold Repo.ListWorktrees
  simp only
  split <;> rfl

theorem PruneWorktrees_snd (r : Repo) (w : World) :
    (r.PruneWorktrees w).2
      = { w with log := w.log ++ [Event.exec r.Path [lit "worktree", lit "prune"]] } := by
  unfold Repo.PruneWorktrees
  simp only
  split <;> rfl

/-- What Save leaves behind, by the cases of its two steps. -/
theorem Save_cases (w : World) (repoPath : GoString) (m : Metadata) :
    (marshalMetadata w.timeMarshal m = none ∧ Save w repoPath m
        = (.error (Error.wrapf "failed to marshal metadata: %w" [] Error.external), w))
      ∨ (∃ doc, marshalMetadata w.timeMarshal m = some doc
          ∧ w.writable (metadataPath repoPath) = false
          ∧ Save w repoPath m
            = (.error (Error.wrapf "failed to write metadata: %w" [] Error.external),
                { w with log := w.log ++ [Event.writeFile (metadataPath repoPath) doc] }))
      ∨ (∃ doc, marshalMetadata w.timeMarshal m = some doc
          ∧ w.writable (metadataPath repoPath) = true
          ∧ Save w repoPath m
            = (.ok (),
                { w with
                  readFile := fun p =>
                    if p = metadataPath repoPath then ReadResult.ok (FileData.json doc)
                    else w.readFile p
                  log := w.log ++ [Event.writeFile (metadataPath repoPath) doc] })) := by
  cases hm : marshalMetadata w.timeMarshal m with
  | none => left; simp [Save, hm]
  | some doc =>
    right
    cases hw : w.writable (metadataPath repoPath) with
    | false => left; exact ⟨doc, rfl, rfl, by simp [Save, hm, World.writeFile, hw]⟩
    | true => right; exact ⟨doc, rfl, rfl, by simp [Save, hm, World.writeFile, hw]⟩

theorem PruneWorktrees_eq (r : Repo) (w : World) :
    ∃ res, r.PruneWorktrees w
      = (res, { w with log := w.log ++ [Event.exec r.Path [lit "worktree", lit "prune"]] }) :=
  ⟨(r.PruneWorktrees w).1, Prod.ext rfl (PruneWorktrees_snd r w)⟩

/-- C1: Prune removes from the registry exactly the stale entries. Run where
the primary root is found, the registry loads and git lists the live
worktrees: the registry Prune keeps has the mainline of the loaded one, has no
entry for a ticket whose entry is stale, and has every other entry as it was.
When nothing is stale that registry is the loaded one and Prune writes no
file; otherwise the document Prune writes to the metadata file is that
registry. -/
theorem Prune_removes_exactly_stale (args : List GoString) (w : World) (root : GoString)
    (m : Metadata) (wts : List WorktreeInfo)
    (hroot : GetPrimaryRepoPath w = .ok root) (hload : Load w root = .ok m)
    (hlist : ((NewRepo root).ListWorktrees w).1 = .ok wts) :
    ∃ kept : Metadata,
      kept.Mainline = m.Mainline
      ∧ (∀ t e, m.GetWorktree t = some e → StaleEntry w.cwd wts e → kept.GetWorktree t = none)
      ∧ (∀ t e, m.GetWorktree t = some e → ¬ StaleEntry w.cwd wts e →
          kept.GetWorktree t = some e)
      ∧ (∀ t, m.GetWorktree t = none → kept.GetWorktree t = none)
      ∧ ((∀ t e, m.GetWorktree t = some e → ¬ StaleEntry w.cwd wts e) →
          kept = m
            ∧ (Prune args w).2.log
              = w.log ++ [Event.exec root [lit "worktree", lit "list", lit "--porcelain"],
                  Event.exec root [lit "worktree", lit "prune"]]
            ∧ (Prune args w).2.readFile = w.readFile)
      ∧ ((∃ t e, m.GetWorktree t = some e ∧ StaleEntry w.cwd wts e) →
          ∀ doc, marshalMetadata w.timeMarshal kept = some doc →
            (Prune args w).2.log
              = w.log ++ [Event.exec root [lit "worktree", lit "list", lit "--porcelain"],
                    Event.writeFile (metadataPath root) doc]
                  ++ (if w.writable (metadataPath root)
                      then [Event.exec root [lit "worktree", lit "prune"]] else [])
            ∧ (w.writable (metadataPath root) = true →
                (Prune args w).2.readFile (metadataPath root)
                  = ReadResult.ok (FileData.json doc))) := by
  have hmem := mem_staleTicketsOf w.cwd wts m
  have hget := fun t =>
    removeTickets_GetWorktree
      (staleTicketsOf w.cwd (existingPathsOf w.cwd wts) m.Worktrees.entries) t m
  have hpair : (NewRepo root).ListWorktrees w
      = (.ok wts, { w with log := w.log ++ [Event.exec root
            [lit "worktree", lit "list", lit "--porcelain"]] }) :=
    Prod.ext hlist (ListWorktrees_snd _ _)
  refine ⟨removeTickets m
    (staleTicketsOf w.cwd (existingPathsOf w.cwd wts) m.Worktrees.entries),
    removeTickets_Mainline _ _, ?_, ?_, ?_, ?_, ?_⟩
  · intro t e he hst
    rw [hget, if_pos ((hmem t).2 ⟨e, he, hst⟩)]
  · intro t e he hst
    rw [hget, if_neg, he]
    rintro h
    obtain ⟨e2, he2, hst2⟩ := (hmem t).1 h
    rw [he] at he2
    cases he2
    exact hst hst2
  · intro t ht
    rw [hget, ht]; simp
  · intro hnone
    have hnil : staleTicketsOf w.cwd (existingPathsOf w.cwd wts) m.Worktrees.entries = [] := by
      apply List.eq_nil_iff_forall_not_mem.2
      intro t ht
      obtain ⟨e, he, hst⟩ := (hmem t).1 ht
      exact hnone t e he hst
    refine ⟨by rw [hnil]; rfl, ?_, ?_⟩
    · simp only [Prune, hroot, hload, hpair, hnil, List.length_nil, if_true]
      obtain ⟨res, h⟩ := PruneWorktrees_eq (NewRepo root) { w with log := w.log ++ [Event.exec root
            [lit "worktree", lit "list", lit "--porcelain"]] }
      rw [h]
      cases res <;> simp [NewRepo]
    · simp only [Prune, hroot, hload, hpair, hnil, List.length_nil, if_true]
      obtain ⟨res, h⟩ := PruneWorktrees_eq (NewRepo root) { w with log := w.log ++ [Event.exec root
            [lit "worktree", lit "list", lit "--porcelain"]] }
      rw [h]
      cases res <;> rfl
  · rintro ⟨t, e, he, hst⟩ doc hdoc
    have hne : (staleTicketsOf w.cwd (existingPathsOf w.cwd wts) m.Worktrees.entries).length ≠ 0 := by
      intro h0
      have := (hmem t).2 ⟨e, he, hst⟩
      rw [List.length_eq_zero.1 h0] at this
      exact absurd this (List.not_mem_nil t)
    simp only [Prune, hroot, hload, hpair, if_neg hne]
    rcases Save_cases { w with log := w.log ++ [Event.exec root
            [lit "worktree", lit "list", lit "--porcelain"]] } root
        (removeTickets m
          (staleTicketsOf w.cwd (existingPathsOf w.cwd wts) m.Worktrees.entries))
      with ⟨h1, _⟩ | ⟨doc2, h1, h2, h3⟩ | ⟨doc2, h1, h2, h3⟩
    · simp only at h1
      rw [hdoc] at h1
      cases h1
    · simp only at h1 h2
      rw [hdoc] at h1
      cases h1
      rw [h3]
      simp [h2]
    · simp only at h1 h2
      rw [hdoc] at h1
      cases h1
      rw [h3]
      simp only
      obtain ⟨res, h⟩ := PruneWorktrees_eq (NewRepo root)
        { w with
          readFile := fun p =>
            if p = metadataPath root then ReadResult.ok (FileData.json doc) else w.readFile p
          log := w.log ++ [Event.exec root [lit "worktree", lit "list", lit "--porcelain"]]
            ++ [Event.writeFile (metadataPath root) doc] }
      rw [h]
      cases res <;> simp [h2, NewRepo]

/-- Witness of C1: with the entries A at `/w/A` and B at `/w/B` and a live
list that holds `/w/A` but not `/w/B`, A is kept and exactly B is removed. -/
theorem Prune_removes_exactly_stale_witness :
    GetPrimaryRepoPath worldAB = .ok (lit "/r")
      ∧ Load worldAB (lit "/r") = .ok registryAB
      ∧ ((NewRepo (lit "/r")).ListWorktrees worldAB).1 = .ok worktreesAB
      ∧ ∃ kept : Metadata,
          kept.GetWorktree (lit "A") = some ⟨lit "/w/A", lit "A", ⟨0⟩, lit "A"⟩
            ∧ kept.GetWorktree (lit "B") = none
            ∧ kept.Mainline = lit "main" := by
  refine ⟨rfl, rfl, rfl, ?_⟩
  obtain ⟨kept, h1, h2, h3, _, _, _⟩ :=
    Prune_removes_exactly_stale [] worldAB (lit "/r") registryAB worktreesAB rfl rfl rfl
  refine ⟨kept, h3 (lit "A") _ rfl ?_, h2 (lit "B") _ rfl ?_, h1⟩
  · intro h
    exact h (lit "/w/A") rfl ⟨lit "/w/A", lit "A", lit "def", false⟩
      (by simp [worktreesAB]) rfl
  · intro a ha wt hwt
    have ha2 : a = lit "/w/B" := by
      have : Abs worldAB.cwd (lit "/w/B") = some (lit "/w/B") := rfl
      rw [this] at ha
      exact (Option.some.inj ha).symm
    subst ha2
    simp only [worktreesAB, List.mem_cons, List.mem_singleton, List.not_mem_nil, or_false] at hwt
    rcases hwt with rfl | rfl <;> decide

/-! ## Effects of the backend operations -/

theorem Fetch_snd (r : Repo) (w : World) :
    (r.Fetch w).2 = { w with log := w.log ++ [Event.exec r.Path [lit "fetch", lit "origin"]] } := by
  unfold Repo.Fetch
  simp only
  split <;> rfl

theorem GetStatus_snd (r : Repo) (w : World) :
    (r.GetStatus w).2
      = { w with log := w.log ++ [Event.exec r.Path [lit "status", lit "--porcelain"]] } := by
  unfold Repo.GetStatus
  simp only
  split <;> rfl

theorem IsClean_snd (r : Repo) (w : World) :
    (r.IsClean w).2
      = { w with log := w.log ++ [Event.exec r.Path [lit "status", lit "--porcelain"]] } := by
  have h := GetStatus_snd r w
  unfold Repo.IsClean
  cases hs : r.GetStatus w with
  | mk res w1 =>
    rw [hs] at h
    cases res <;> exact h

theorem RemoveWorktree_snd (r : Repo) (path : GoString) (w : World) :
    (r.RemoveWorktree path w).2
      = { w with log := w.log ++ [Event.exec r.Path [lit "worktree", lit "remove", path]] } := by
  unfold Repo.RemoveWorktree
  simp only
  split <;> rfl

theorem DeleteBranch_snd (r : Repo) (branch : GoString) (w : World) :
    (r.DeleteBranch branch w).2
      = { w with log := w.log ++ [Event.exec r.Path [lit "branch", lit "-D", branch]] } := by
  unfold Repo.DeleteBranch
  simp only
  split <;> rfl

theorem Rebase_snd (r : Repo) (target : GoString) (w : World) :
    (r.Rebase target w).2
      = { w with log := w.log ++ [Event.exec r.Path [lit "rebase", target]] } := by
  unfold Repo.Rebase
  simp only
  split <;> rfl

/-- The world after the AddWorktree of the backend, when it succeeds: the
parent directory was made and `git worktree add` ran once. -/
theorem AddWorktree_ok (r : Repo) (path branch startPoint : GoString) (w w2 : World)
    (h : r.AddWorktree path branch startPoint w = (.ok (), w2)) :
    w2 = { w with log := w.log ++ [Event.mkdirAll (Dir path),
      Event.exec r.Path [lit "worktree", lit "add", lit "-b", branch, path, startPoint]] } := by
  unfold Repo.AddWorktree at h
  simp only at h
  split at h
  · split at h
    · rw [← (Prod.mk.inj h).2, runGit_snd]
      simp
    · exact absurd (Prod.mk.inj h).1 (by simp)
  · exact absurd (Prod.mk.inj h).1 (by simp)

theorem detectFallback_effect (r : Repo) (names : List GoString) :
    ∀ w : World, ∃ evs, (detectFallback r names w).2 = { w with log := w.log ++ evs }
      ∧ ∀ e ∈ evs, IsRevParse r.Path e := by
  induction names with
  | nil => intro w; exact ⟨[], by simp [detectFallback], by simp⟩
  | cons name rest ih =>
    intro w
    unfold detectFallback
    simp only
    split
    · exact ⟨[Event.exec r.Path [lit "rev-parse", lit "--verify", lit "origin/" ++ name]],
        by rw [runGit_snd], by
          intro e he
          rw [List.mem_singleton.1 he]
          exact ⟨_, rfl⟩⟩
    · obtain ⟨evs, h1, h2⟩ := ih (w.runGit r.Path
        [lit "rev-parse", lit "--verify", lit "origin/" ++ name]).2
      refine ⟨Event.exec r.Path [lit "rev-parse", lit "--verify", lit "origin/" ++ name] :: evs,
        ?_, ?_⟩
      · rw [h1, runGit_snd]; simp
      · intro e he
        rcases List.mem_cons.1 he with h | h
        · rw [h]; exact ⟨_, rfl⟩
        · exact h2 e h

theorem DetectMainline_effect (r : Repo) (w : World) :
    ∃ evs, (r.DetectMainline w).2 = { w with log := w.log ++ evs }
      ∧ ∀ e ∈ evs, IsRevParse r.Path e := by
  obtain ⟨evs, h1, h2⟩ := detectFallback_effect r [lit "main", lit "master", lit "develop"]
    (w.runGit r.Path [lit "rev-parse", lit "--abbrev-ref", lit "origin/HEAD"]).2
  have hfb : ∃ evs, (detectFallback r [lit "main", lit "master", lit "develop"]
      (w.runGit r.Path [lit "rev-parse", lit "--abbrev-ref", lit "origin/HEAD"]).2).2
        = { w with log := w.log ++ evs } ∧ ∀ e ∈ evs, IsRevParse r.Path e := by
    refine ⟨Event.exec r.Path [lit "rev-parse", lit "--abbrev-ref", lit "origin/HEAD"] :: evs,
      ?_, ?_⟩
    · rw [h1, runGit_snd]; simp
    · intro e he
      rcases List.mem_cons.1 he with h | h
      · rw [h]; exact ⟨_, rfl⟩
      · exact h2 e h
  unfold Repo.DetectMainline
  simp only
  split
  · split
    · split
      · exact ⟨[Event.exec r.Path [lit "rev-parse", lit "--abbrev-ref", lit "origin/HEAD"]],
          by rw [runGit_snd], by
            intro e he
            rw [List.mem_singleton.1 he]
            exact ⟨_, rfl⟩⟩
      · exact hfb
    · exact hfb
  · exact hfb

/-! ## Create, Update and Delete -/

/-- C5: Create fails before any backend call and without touching the
registry when it is run from a linked worktree, and when the ticket already
has a registry entry: the world after it is the world before it (no run of
git, no directory made, no file written). Past the location of the root the
first failure is the in-worktree error; for a registered ticket at the primary
root the error reports the path of the existing entry. -/
theorem Create_rejects_before_backend (args : List GoString) (w : World) :
    (IsInWorktree w = .ok true →
        (∃ err, Create args w = (.error err, w))
          ∧ ∀ ticket more root, args = ticket :: more → GetPrimaryRepoPath w = .ok root →
              Create args w = (.error (Error.errorf
                "must be in primary repository to create worktree (not in an existing worktree)"
                []), w))
      ∧ (∀ ticket more root m e, args = ticket :: more → GetPrimaryRepoPath w = .ok root →
          Load w root = .ok m → m.GetWorktree ticket = some e →
            (∃ err, Create args w = (.error err, w))
              ∧ (IsInWorktree w = .ok false →
                  Create args w = (.error (Error.errorf "worktree for %s already exists at %s"
                    [ticket, e.Path]), w))) := by
  constructor
  · intro hin
    constructor
    · cases args with
      | nil => exact ⟨_, rfl⟩
      | cons ticket more =>
        cases hroot : GetPrimaryRepoPath w with
        | error err =>
          exact ⟨Error.wrapf "failed to find primary repository: %w" [] err,
            by simp [Create, hroot]⟩
        | ok root =>
          exact ⟨Error.errorf
            "must be in primary repository to create worktree (not in an existing worktree)" [],
            by simp [Create, hroot, hin]⟩
    · intro ticket more root hargs hroot
      subst hargs
      simp [Create, hroot, hin]
  · intro ticket more root m e hargs hroot hload hget
    subst hargs
    have hhas : m.HasWorktree ticket = true := by
      simp [Metadata.HasWorktree, Metadata.GetWorktree] at hget ⊢
      rw [hget]; rfl
    have hlook : (m.Worktrees.lookup ticket).getD WorktreeEntry.zero = e := by
      simp [Metadata.GetWorktree] at hget
      rw [hget]; rfl
    constructor
    · cases hin : IsInWorktree w with
      | error err => exact ⟨err, by simp [Create, hroot, hin]⟩
      | ok b =>
        cases b with
        | true =>
          exact ⟨Error.errorf
            "must be in primary repository to create worktree (not in an existing worktree)" [],
            by simp [Create, hroot, hin]⟩
        | false =>
          exact ⟨Error.errorf "worktree for %s already exists at %s" [ticket, e.Path],
            by simp [Create, hroot, hin, hload, hhas, hlook]⟩
    · intro hin
      simp [Create, hroot, hin, hload, hhas, hlook]

/-- C8: Update of a registered ticket with a configured mainline whose
worktree has uncommitted changes fails with the dirty-worktree error; the only
run of the backend is the status query, so there is no fetch and no rebase,
and no file is written. -/
theorem Update_dirty_fails (ticket : GoString) (more : List GoString) (w : World)
    (root : GoString) (m : Metadata) (e : WorktreeEntry)
    (hroot : GetPrimaryRepoPath w = .ok root) (hload : Load w root = .ok m)
    (hget : m.GetWorktree ticket = some e) (hmain : m.Mainline ≠ [])
    (hdirty : ((NewRepo e.Path).IsClean w).1 = .ok false) :
    Update (ticket :: more) w
      = (.error (Error.errorf
          "worktree has uncommitted changes, please commit or stash them first" []),
        { w with log := w.log ++ [Event.exec e.Path [lit "status", lit "--porcelain"]] }) := by
  have hpair : (NewRepo e.Path).IsClean w
      = (.ok false,
        { w with log := w.log ++ [Event.exec e.Path [lit "status", lit "--porcelain"]] }) :=
    Prod.ext hdirty (IsClean_snd _ _)
  simp [Update, hroot, hload, hget, hmain, hpair]

theorem Fetch_eq_of_ok (r : Repo) (w : World) (h : (r.Fetch w).1 = .ok ()) :
    r.Fetch w
      = (.ok (), { w with log := w.log ++ [Event.exec r.Path [lit "fetch", lit "origin"]] }) :=
  Prod.ext h (Fetch_snd r w)

/-- C6, as the code has it: when the derived path already exists, Create
fails with the path-collision error without making a directory, without
running `git worktree add` and without writing the registry; by then the
mainline has been detected if none was configured and the fetch has run. Here
the root is found, the location is not a linked worktree, the registry loads
without an entry for the ticket, the mainline is configured or detected, and
the fetch succeeds. -/
theorem Create_path_collision (ticket : GoString) (more : List GoString) (w : World)
    (root : GoString) (m : Metadata)
    (hroot : GetPrimaryRepoPath w = .ok root) (hin : IsInWorktree w = .ok false)
    (hload : Load w root = .ok m) (hnew : m.HasWorktree ticket = false)
    (hdet : m.Mainline = [] → ∃ mainline, ((NewRepo root).DetectMainline w).1 = .ok mainline)
    (hfetch : ((NewRepo root).Fetch
      (if m.Mainline = [] then ((NewRepo root).DetectMainline w).2 else w)).1 = .ok ())
    (hstat : (w.stat (GetWorktreePath root ticket)).isSome = true) :
    ∃ evs, (∀ e ∈ evs, IsRevParse root e) ∧ (m.Mainline ≠ [] → evs = [])
      ∧ Create (ticket :: more) w
        = (.error (Error.errorf "path already exists: %s" [GetWorktreePath root ticket]),
          { w with log := w.log ++ evs ++ [Event.exec root [lit "fetch", lit "origin"]] }) := by
  by_cases hmain : m.Mainline = []
  · obtain ⟨mainline, hd⟩ := hdet hmain
    obtain ⟨evs, h1, h2⟩ := DetectMainline_effect (NewRepo root) w
    have hpair : (NewRepo root).DetectMainline w
        = (.ok mainline, { w with log := w.log ++ evs }) := Prod.ext hd h1
    rw [if_pos hmain, h1] at hfetch
    have hf := Fetch_eq_of_ok _ _ hfetch
    refine ⟨evs, h2, fun h => absurd hmain h, ?_⟩
    simp only [Create, hroot, hin, hload, hnew, Bool.false_eq_true, if_false, hmain, if_true,
      hpair, hf]
    simp [hstat, NewRepo]
  · rw [if_neg hmain] at hfetch
    have hf := Fetch_eq_of_ok _ _ hfetch
    refine ⟨[], by simp, fun _ => rfl, ?_⟩
    simp only [Create, hroot, hin, hload, hnew, Bool.false_eq_true, if_false, hmain, hf]
    simp [hstat, NewRepo]

/-- C7, as the code has it: Delete of a registered ticket whose worktree is
clean, when the backend removes the worktree and the registry can be saved,
reports success whether the branch deletion succeeds or fails. It queries the
status, removes the worktree, attempts the branch deletion and writes the
loaded registry without the entry of the ticket, every other entry and the
mainline unchanged. -/
theorem Delete_clean_succeeds (ticket : GoString) (more : List GoString) (w : World)
    (root : GoString) (m : Metadata) (e : WorktreeEntry) (doc : Json)
    (hroot : GetPrimaryRepoPath w = .ok root) (hload : Load w root = .ok m)
    (hget : m.GetWorktree ticket = some e)
    (hclean : ((NewRepo e.Path).IsClean w).1 = .ok true)
    (hremove : ((NewRepo root).RemoveWorktree e.Path ((NewRepo e.Path).IsClean w).2).1 = .ok ())
    (hdoc : marshalMetadata w.timeMarshal (m.RemoveWorktree ticket) = some doc)
    (hwrite : w.writable (metadataPath root) = true) :
    Delete (ticket :: more) w
        = (.ok (), { w with
            readFile := fun p =>
              if p = metadataPath root then ReadResult.ok (FileData.json doc) else w.readFile p
            log := w.log ++ [Event.exec e.Path [lit "status", lit "--porcelain"],
              Event.exec root [lit "worktree", lit "remove", e.Path],
              Event.exec root [lit "branch", lit "-D", e.Branch],
              Event.writeFile (metadataPath root) doc] })
      ∧ (m.RemoveWorktree ticket).GetWorktree ticket = none
      ∧ (∀ u, u ≠ ticket → (m.RemoveWorktree ticket).GetWorktree u = m.GetWorktree u)
      ∧ (m.RemoveWorktree ticket).Mainline = m.Mainline := by
  refine ⟨?_, by simp [Metadata.RemoveWorktree, Metadata.GetWorktree], ?_, rfl⟩
  · have hc : (NewRepo e.Path).IsClean w
        = (.ok true,
          { w with log := w.log ++ [Event.exec e.Path [lit "status", lit "--porcelain"]] }) :=
      Prod.ext hclean (IsClean_snd _ _)
    rw [IsClean_snd] at hremove
    have hr : (NewRepo root).RemoveWorktree e.Path
          { w with log := w.log ++ [Event.exec e.Path [lit "status", lit "--porcelain"]] }
        = (.ok (), { w with log := w.log ++ [Event.exec e.Path [lit "status", lit "--porcelain"]]
            ++ [Event.exec root [lit "worktree", lit "remove", e.Path]] }) :=
      Prod.ext hremove (RemoveWorktree_snd _ _ _)
    simp only [Delete, hroot, hload, hget, hc, hr]
    rw [DeleteBranch_snd]
    rcases Save_cases
      { w with log := w.log ++ [Event.exec e.Path [lit "status", lit "--porcelain"]]
          ++ [Event.exec (NewRepo root).Path [lit "worktree", lit "remove", e.Path]]
          ++ [Event.exec (NewRepo root).Path [lit "branch", lit "-D", e.Branch]] }
      root (m.RemoveWorktree ticket) with ⟨h1, _⟩ | ⟨doc2, _, h2, _⟩ | ⟨doc2, h1, _, h3⟩
    · simp only at h1
      rw [hdoc] at h1; cases h1
    · simp only at h2
      rw [hwrite] at h2; cases h2
    · simp only at h1
      rw [hdoc] at h1
      cases h1
      simp only [NewRepo, List.append_assoc, List.cons_append, List.nil_append] at h3 ⊢
      rw [h3]
  · intro u hu
    simp [Metadata.RemoveWorktree, Metadata.GetWorktree, AList.lookup_erase_ne hu]

theorem pair_eq {α β : Type} (p : α × β) (a : α) (b : β) (h1 : p.1 = a) (h2 : p.2 = b) :
    p = (a, b) := by
  cases p
  simp only at h1 h2
  rw [h1, h2]

theorem branchName_eq (ticket : GoString) (more : List GoString) :
    (match more with
      | name :: _ => name
      | [] => ticket) = more.headD ticket := by
  cases more <;> rfl

/-- C4: every successful Create ran at the primary root, for a ticket without
a registry entry and a derived path that is not on disk. The mainline used is
the configured one, or the one detected from the backend when none was
configured; the fetch ran; `git worktree add` ran exactly once, with the
derived path, the new branch (the ticket when no branch name is given) and the
start point `origin/<mainline>`; and the document written is the loaded
registry with that mainline plus the entry of the ticket. -/
theorem Create_success (args : List GoString) (w : World)
    (hok : (Create args w).1 = .ok ()) :
    ∃ ticket more root m evs mainline doc,
      args = ticket :: more
        ∧ GetPrimaryRepoPath w = .ok root ∧ IsInWorktree w = .ok false
        ∧ Load w root = .ok m ∧ m.HasWorktree ticket = false
        ∧ w.stat (GetWorktreePath root ticket) = none
        ∧ (m.Mainline ≠ [] → mainline = m.Mainline ∧ evs = [])
        ∧ (m.Mainline = [] → ((NewRepo root).DetectMainline w).1 = .ok mainline)
        ∧ (∀ e ∈ evs, IsRevParse root e)
        ∧ marshalMetadata w.timeMarshal
            (({ m with Mainline := mainline } : Metadata).AddWorktree w.now ticket
              (GetWorktreePath root ticket) (more.headD ticket)) = some doc
        ∧ (Create args w).2 = { w with
            readFile := fun p =>
              if p = metadataPath root then ReadResult.ok (FileData.json doc) else w.readFile p
            log := w.log ++ evs ++ [Event.exec root [lit "fetch", lit "origin"],
              Event.mkdirAll (Dir (GetWorktreePath root ticket)),
              Event.exec root [lit "worktree", lit "add", lit "-b", more.headD ticket,
                GetWorktreePath root ticket, lit "origin/" ++ mainline],
              Event.writeFile (metadataPath root) doc] } := by
  generalize hres : Create args w = res at hok ⊢
  cases args with
  | nil => simp only [Create] at hres; subst hres; simp at hok
  | cons ticket more =>
    cases hroot : GetPrimaryRepoPath w with
    | error err => simp only [Create, hroot] at hres; subst hres; simp at hok
    | ok root =>
      cases hin : IsInWorktree w with
      | error err => simp only [Create, hroot, hin] at hres; subst hres; simp at hok
      | ok b =>
        cases b with
        | true => simp only [Create, hroot, hin] at hres; subst hres; simp at hok
        | false =>
          cases hload : Load w root with
          | error err => simp only [Create, hroot, hin, hload] at hres; subst hres; simp at hok
          | ok m =>
            cases hhas : m.HasWorktree ticket with
            | true => simp only [Create, hroot, hin, hload, hhas, if_true] at hres; subst hres; simp at hok
            | false =>
              simp only [Create, hroot, hin, hload, hhas, Bool.false_eq_true, if_false,
                branchName_eq] at hres
              by_cases hmain : m.Mainline = []
              · simp only [hmain, if_true] at hres
                obtain ⟨evs, hd2, hrev⟩ := DetectMainline_effect (NewRepo root) w
                cases hd1 : ((NewRepo root).DetectMainline w).1 with
                | error err =>
                  rw [pair_eq _ _ _ hd1 hd2] at hres
                  dsimp only at hres
                  subst hres; simp at hok
                | ok mainline =>
                  rw [pair_eq _ _ _ hd1 hd2] at hres
                  dsimp only at hres

                  cases hf : ((NewRepo root).Fetch { w with log := w.log ++ evs }).1 with
                  | error err =>
                    rw [pair_eq _ _ _ hf (Fetch_snd _ { w with log := w.log ++ evs })] at hres
                    dsimp only at hres
                    subst hres; simp at hok
                  | ok u =>
                    rw [pair_eq _ _ _ hf (Fetch_snd _ { w with log := w.log ++ evs })] at hres
                    dsimp only at hres
                    cases hst : w.stat (GetWorktreePath root ticket) with
                    | some d =>
                      simp only [hst, Option.isSome_some, if_true] at hres
                      subst hres; simp at hok
                    | none =>
                      simp only [hst, Option.isSome_none, Bool.false_eq_true, if_false] at hres
                      cases ha : (NewRepo root).AddWorktree (GetWorktreePath root ticket)
                          (more.headD ticket) (lit "origin/" ++ mainline)
                          { w with log := w.log ++ evs
                              ++ [Event.exec (NewRepo root).Path [lit "fetch", lit "origin"]] } with
                      | mk res2 w3 =>
                        rw [ha] at hres
                        cases res2 with
                        | error err =>
                          dsimp only at hres
                          subst hres; simp at hok
                        | ok u2 =>
                          have hw3 := AddWorktree_ok _ _ _ _ _ _ ha
                          dsimp only at hw3
                          subst hw3
                          dsimp only at hres
                          rcases Save_cases
                            { w with log := w.log ++ evs
                              ++ [Event.exec (NewRepo root).Path [lit "fetch", lit "origin"]]
                              ++ [Event.mkdirAll (Dir (GetWorktreePath root ticket)),
                                Event.exec (NewRepo root).Path [lit "worktree", lit "add", lit "-b",
                                  more.headD ticket, GetWorktreePath root ticket,
                                  lit "origin/" ++ mainline]] }
                            root (({ Worktrees := m.Worktrees, Mainline := mainline } : Metadata).AddWorktree w.now ticket (GetWorktreePath root ticket)
                              (more.headD ticket))
                            with ⟨_, h3⟩ | ⟨doc, _, _, h3⟩ | ⟨doc, h1, _, h3⟩
                          · rw [h3] at hres
                            dsimp only at hres
                            subst hres; simp at hok
                          · rw [h3] at hres
                            dsimp only at hres
                            subst hres; simp at hok
                          · rw [h3] at hres
                            dsimp only at hres
                            subst hres
                            refine ⟨ticket, more, root, m, evs, mainline, doc, rfl, rfl, rfl, hload, hhas,
                              hst, (fun h => absurd hmain h), (fun _ => hd1), hrev, h1, ?_⟩
                            simp [NewRepo]
              · simp only [hmain, if_false] at hres

                cases hf : ((NewRepo root).Fetch w).1 with
                | error err =>
                  rw [pair_eq _ _ _ hf (Fetch_snd _ w)] at hres
                  dsimp only at hres
                  subst hres; simp at hok
                | ok u =>
                  rw [pair_eq _ _ _ hf (Fetch_snd _ w)] at hres
                  dsimp only at hres
                  cases hst : w.stat (GetWorktreePath root ticket) with
                  | some d =>
                    simp only [hst, Option.isSome_some, if_true] at hres
                    subst hres; simp at hok
                  | none =>
                    simp only [hst, Option.isSome_none, Bool.false_eq_true, if_false] at hres
                    cases ha : (NewRepo root).AddWorktree (GetWorktreePath root ticket)
                        (more.headD ticket) (lit "origin/" ++ m.Mainline)
                        { w with log := w.log
                            ++ [Event.exec (NewRepo root).Path [lit "fetch", lit "origin"]] } with
                    | mk res2 w3 =>
                      rw [ha] at hres
                      cases res2 with
                      | error err =>
                        dsimp only at hres
                        subst hres; simp at hok
                      | ok u2 =>
                        have hw3 := AddWorktree_ok _ _ _ _ _ _ ha
                        dsimp only at hw3
                        subst hw3
                        dsimp only at hres
                        rcases Save_cases
                          { w with log := w.log
                            ++ [Event.exec (NewRepo root).Path [lit "fetch", lit "origin"]]
                            ++ [Event.mkdirAll (Dir (GetWorktreePath root ticket)),
                              Event.exec (NewRepo root).Path [lit "worktree", lit "add", lit "-b",
                                more.headD ticket, GetWorktreePath root ticket,
                                lit "origin/" ++ m.Mainline]] }
                          root (m.AddWorktree w.now ticket (GetWorktreePath root ticket)
                            (more.headD ticket))
                          with ⟨_, h3⟩ | ⟨doc, _, _, h3⟩ | ⟨doc, h1, _, h3⟩
                        · rw [h3] at hres
                          dsimp only at hres
                          subst hres; simp at hok
                        · rw [h3] at hres
                          dsimp only at hres
                          subst hres; simp at hok
                        · rw [h3] at hres
                          dsimp only at hres
                          subst hres
                          refine ⟨ticket, more, root, m, [], m.Mainline, doc, rfl, rfl, rfl, hload, hhas,
                            hst, (fun _ => ⟨rfl, rfl⟩), (fun h => absurd h hmain), (by simp), h1, ?_⟩
                          simp [NewRepo]

/-! ## The commands on example worlds -/

/-- Witness of C4: at the primary root `/r`, with no registry file and the
mainline `main` detected, `Create T1` succeeds; it writes the registry whose
one entry is T1 at `/worktrees/r/T1` on branch T1, with the mainline `main`,
after one `git worktree add` from `origin/main`. -/
theorem Create_success_witness :
    (Create [lit "T1"] worldFresh).1 = .ok ()
      ∧ ∃ doc,
          marshalMetadata worldFresh.timeMarshal
              ⟨AList.insert (lit "T1") ⟨lit "/worktrees/r/T1", lit "T1", ⟨0⟩, lit "T1"⟩ ∅,
                lit "main"⟩ = some doc
            ∧ (Create [lit "T1"] worldFresh).2.log
              = [Event.exec (lit "/r") [lit "rev-parse", lit "--abbrev-ref", lit "origin/HEAD"],
                Event.exec (lit "/r") [lit "fetch", lit "origin"],
                Event.mkdirAll (lit "/worktrees/r"),
                Event.exec (lit "/r") [lit "worktree", lit "add", lit "-b", lit "T1",
                  lit "/worktrees/r/T1", lit "origin/main"],
                Event.writeFile (lit "/r/.git/worktree-metadata.json") doc] := by
  refine ⟨rfl, ?_⟩
  obtain ⟨ticket, more, root, m, evs, mainline, doc, hargs, hroot, _, hload, _, _, _, hdet, _,
    hdoc, _⟩ := Create_success [lit "T1"] worldFresh rfl
  cases hargs
  have hr : GetPrimaryRepoPath worldFresh = .ok (lit "/r") := rfl
  rw [hr] at hroot
  cases hroot
  have hl : Load worldFresh (lit "/r") = .ok ⟨∅, []⟩ := rfl
  rw [hl] at hload
  cases hload
  have hd : ((NewRepo (lit "/r")).DetectMainline worldFresh).1 = .ok (lit "main") := rfl
  have hm := hdet rfl
  rw [hd] at hm
  cases hm
  refine ⟨doc, hdoc, ?_⟩
  have hd2 : marshalMetadata worldFresh.timeMarshal
      (({ Worktrees := ∅, Mainline := lit "main" } : Metadata).AddWorktree worldFresh.now
        (lit "T1") (GetWorktreePath (lit "/r") (lit "T1")) ([].headD (lit "T1")))
      = some (Json.object [
          (lit "worktrees", Json.object [(lit "T1", exampleEntryDoc "T1" "/worktrees/r/T1")]),
          (lit "mainline", Json.str (lit "main"))]) := rfl
  rw [hd2] at hdoc
  cases hdoc
  rfl

/-- Witness of C5: in the linked worktree `/w/A` Create fails with the
in-worktree error, and at the primary root Create of the registered ticket A
fails reporting its path `/w/A`; the world is untouched both times. -/
theorem Create_rejects_before_backend_witness :
    IsInWorktree worldLinked = .ok true
      ∧ Create [lit "T1"] worldLinked = (.error (Error.errorf
          "must be in primary repository to create worktree (not in an existing worktree)" []),
          worldLinked)
      ∧ Create [lit "A"] worldAB = (.error (Error.errorf "worktree for %s already exists at %s"
          [lit "A", lit "/w/A"]), worldAB) :=
  ⟨rfl,
    ((Create_rejects_before_backend [lit "T1"] worldLinked).1 rfl).2 (lit "T1") [] (lit "/r")
      rfl rfl,
    ((Create_rejects_before_backend [lit "A"] worldAB).2 (lit "A") [] (lit "/r") registryAB
      ⟨lit "/w/A", lit "A", ⟨0⟩, lit "A"⟩ rfl rfl rfl rfl).2 rfl⟩

/-- Counterexample to C6 as stated: the path derived for T1 is on disk and
Create fails with the path-collision error, but only after the fetch has run:
the world after the failure is not the world before it. -/
theorem Create_path_collision_after_fetch :
    (worldCollision.stat (GetWorktreePath (lit "/r") (lit "T1"))).isSome = true
      ∧ (Create [lit "T1"] worldCollision).1
          = .error (Error.errorf "path already exists: %s" [lit "/worktrees/r/T1"])
      ∧ (Create [lit "T1"] worldCollision).2.log
          = worldCollision.log ++ [Event.exec (lit "/r") [lit "fetch", lit "origin"]]
      ∧ (Create [lit "T1"] worldCollision).2.log ≠ worldCollision.log := by
  refine ⟨rfl, rfl, rfl, ?_⟩
  intro h
  have h2 : (Create [lit "T1"] worldCollision).2.log
      = [Event.exec (lit "/r") [lit "fetch", lit "origin"]] := rfl
  rw [h2] at h
  exact absurd h (by simp [worldCollision, worldAB])

/-- Witness of C6 as amended: in `worldCollision` the mainline is configured,
so Create fetches and then fails on the existing path. -/
theorem Create_path_collision_witness :
    ∃ evs, (∀ e ∈ evs, IsRevParse (lit "/r") e) ∧ (registryAB.Mainline ≠ [] → evs = [])
      ∧ Create [lit "T1"] worldCollision
        = (.error (Error.errorf "path already exists: %s"
            [GetWorktreePath (lit "/r") (lit "T1")]),
          { worldCollision with
            log := worldCollision.log ++ evs
              ++ [Event.exec (lit "/r") [lit "fetch", lit "origin"]] }) :=
  Create_path_collision (lit "T1") [] worldCollision (lit "/r") registryAB rfl rfl rfl rfl
    (fun h => absurd h (by decide)) rfl rfl

/-- Counterexample to C7 as stated: the ticket B is registered, its worktree
is clean and the backend removes it, and yet Delete reports an error, because
the registry cannot be written. -/
theorem Delete_clean_save_fails :
    Load worldReadOnly (lit "/r") = .ok registryAB
      ∧ registryAB.GetWorktree (lit "B") = some ⟨lit "/w/B", lit "B", ⟨0⟩, lit "B"⟩
      ∧ ((NewRepo (lit "/w/B")).IsClean worldReadOnly).1 = .ok true
      ∧ ((NewRepo (lit "/r")).RemoveWorktree (lit "/w/B")
          ((NewRepo (lit "/w/B")).IsClean worldReadOnly).2).1 = .ok ()
      ∧ (Delete [lit "B"] worldReadOnly).1
          = .error (Error.wrapf "failed to save metadata: %w" []
              (Error.wrapf "failed to write metadata: %w" [] Error.external)) :=
  ⟨rfl, rfl, rfl, rfl, rfl⟩

/-- Witness of C7 as amended: in `worldBranchGone` the branch deletion fails
and Delete of B still succeeds, writing the registry that holds A only. -/
theorem Delete_clean_succeeds_witness :
    ((NewRepo (lit "/r")).DeleteBranch (lit "B") worldBranchGone).1
        = .error (Error.wrapf "failed to delete branch: %w\n%s" [lit "error: branch not found"]
            Error.external)
      ∧ (Delete [lit "B"] worldBranchGone).1 = .ok ()
      ∧ (registryAB.RemoveWorktree (lit "B")).GetWorktree (lit "B") = none
      ∧ (registryAB.RemoveWorktree (lit "B")).GetWorktree (lit "A")
          = some ⟨lit "/w/A", lit "A", ⟨0⟩, lit "A"⟩ := by
  have h := Delete_clean_succeeds (lit "B") [] worldBranchGone (lit "/r") registryAB
    ⟨lit "/w/B", lit "B", ⟨0⟩, lit "B"⟩
    (Json.object [
      (lit "worktrees", Json.object [(lit "A", exampleEntryDoc "A" "/w/A")]),
      (lit "mainline", Json.str (lit "main"))])
    rfl rfl rfl rfl rfl rfl rfl
  refine ⟨rfl, ?_, h.2.1, ?_⟩
  · rw [h.1]
  · rw [h.2.2.1 (lit "A") (by decide)]
    rfl

/-- Witness of C8: in `worldDirty` the worktree of A has a modified file and
Update of A fails after the status query alone. -/
theorem Update_dirty_fails_witness :
    ((NewRepo (lit "/w/A")).IsClean worldDirty).1 = .ok false
      ∧ Update [lit "A"] worldDirty
        = (.error (Error.errorf
            "worktree has uncommitted changes, please commit or stash them first" []),
          { worldDirty with
            log := worldDirty.log ++ [Event.exec (lit "/w/A") [lit "status", lit "--porcelain"]] }) :=
  ⟨rfl, Update_dirty_fails (lit "A") [] worldDirty (lit "/r") registryAB
    ⟨lit "/w/A", lit "A", ⟨0⟩, lit "A"⟩ rfl rfl rfl (by decide) rfl⟩

/-! ## The metadata file -/

theorem coerceFrom_of_valid (s : GoString) :
    ∀ k, validFrom k s = true → coerceFrom k s = s := by
  induction s with
  | nil => intro k _; cases k <;> rfl
  | cons b rest ih =>
    intro k h
    cases k with
    | succ k =>
      simp only [validFrom] at h
      simp only [coerceFrom, ih k h]
    | zero =>
      simp only [validFrom] at h
      simp only [coerceFrom]
      cases hw : runeWidth (b :: rest) with
      | zero => rw [hw] at h; simp at h
      | succ n =>
        rw [hw] at h
        simp only at h ⊢
        rw [ih n h]

theorem toValidUTF8_of_valid (s : GoString) (h : ValidUTF8 s = true) : toValidUTF8 s = s :=
  coerceFrom_of_valid s 0 h

/-- Reading back the object written for a storable entry gives the entry. -/
theorem decodeEntry_marshalEntry (tm : Time → Option GoString) (tu : GoString → Option Time)
    (e : WorktreeEntry) (he : e.Storable tm tu) (j : Json) (hj : marshalEntry tm e = some j) :
    decodeEntry tu WorktreeEntry.zero j = some e := by
  obtain ⟨h1, h2, h3, h4⟩ := he
  unfold marshalEntry at hj
  cases hc : tm e.Created with
  | none => rw [hc] at hj; cases hj
  | some s =>
    rw [hc] at hj
    cases hj
    have k1 : fieldIs "path" (toValidUTF8 (lit "path")) = true := by decide
    have k2 : fieldIs "path" (toValidUTF8 (lit "branch")) = false := by decide
    have k3 : fieldIs "branch" (toValidUTF8 (lit "branch")) = true := by decide
    have k4 : fieldIs "path" (toValidUTF8 (lit "created")) = false := by decide
    have k5 : fieldIs "branch" (toValidUTF8 (lit "created")) = false := by decide
    have k6 : fieldIs "created" (toValidUTF8 (lit "created")) = true := by decide
    have k7 : fieldIs "path" (toValidUTF8 (lit "ticket")) = false := by decide
    have k8 : fieldIs "branch" (toValidUTF8 (lit "ticket")) = false := by decide
    have k9 : fieldIs "created" (toValidUTF8 (lit "ticket")) = false := by decide
    have k10 : fieldIs "ticket" (toValidUTF8 (lit "ticket")) = true := by decide
    simp only [decodeEntry, decodeFields, decodeEntryField, k1, k2, k3, k4, k5, k6, k7, k8, k9,
      k10, decodeString, decodeTime, Option.map_some', if_true, Bool.false_eq_true, if_false,
      toValidUTF8_of_valid _ h1, toValidUTF8_of_valid _ h2, toValidUTF8_of_valid _ h3,
      h4 s hc]

/-- Assigning the pairs of a list with unique keys to a map, one after the
other, gives a map that answers like the list. -/
theorem lookup_foldl_insert (t : GoString)
    (L : List (Sigma (fun _ : GoString => WorktreeEntry))) :
    ∀ acc : WorktreeMap, L.NodupKeys →
      (L.foldl (fun a kv => a.insert kv.1 kv.2) acc).lookup t
        = (L.dlookup t).orElse (fun _ => acc.lookup t) := by
  induction L with
  | nil => intro acc _; simp
  | cons kv rest ih =>
    intro acc hnd
    obtain ⟨k, v⟩ := kv
    rw [List.nodupKeys_cons] at hnd
    rw [List.foldl_cons, ih _ hnd.2]
    by_cases hk : t = k
    · subst hk
      have : rest.dlookup t = none := List.dlookup_eq_none.2 hnd.1
      simp [this]
    · have hk2 : k ≠ t := fun e => hk e.symm
      rw [List.dlookup_cons_ne _ _ hk]
      simp [AList.lookup_insert_ne hk]

/-- Reading back the members written for storable entries assigns the
entries to the map. -/
theorem decodeFields_marshalEntries (tm : Time → Option GoString)
    (tu : GoString → Option Time) (L : List (Sigma (fun _ : GoString => WorktreeEntry))) :
    ∀ (fields : List (GoString × Json)) (acc : WorktreeMap),
      (∀ kv ∈ L, ValidUTF8 kv.1 = true ∧ kv.2.Storable tm tu) →
      marshalEntries tm L = some fields →
      decodeFields (decodeMapField tu) acc fields
        = some (L.foldl (fun a kv => a.insert kv.1 kv.2) acc) := by
  induction L with
  | nil =>
    intro fields acc _ h
    simp only [marshalEntries] at h
    cases h
    rfl
  | cons kv rest ih =>
    intro fields acc hst h
    simp only [marshalEntries] at h
    cases hj : marshalEntry tm kv.2 with
    | none => rw [hj] at h; simp at h
    | some j =>
      cases hr : marshalEntries tm rest with
      | none => rw [hj, hr] at h; simp at h
      | some js =>
        rw [hj, hr] at h
        simp only at h
        cases h
        obtain ⟨hv, hs⟩ := hst kv (List.mem_cons_self _ _)
        have hd := decodeEntry_marshalEntry tm tu kv.2 hs j hj
        simp only [decodeFields, decodeMapField, hd, Option.map_some',
          toValidUTF8_of_valid _ hv]
        exact ih js _ (fun x hx => hst x (List.mem_cons_of_mem _ hx)) hr

/-- Reading back the document written for a storable registry gives a map
that answers like the registry, and its mainline. -/
theorem unmarshal_marshalMetadata (tm : Time → Option GoString) (tu : GoString → Option Time)
    (m : Metadata) (hm : m.Storable tm tu) (doc : Json)
    (hdoc : marshalMetadata tm m = some doc) :
    ∃ ws : WorktreeMap, unmarshalMetadata tu (FileData.json doc) = some ⟨some ws, m.Mainline⟩
      ∧ ∀ t, ws.lookup t = m.Worktrees.lookup t := by
  obtain ⟨hml, hent⟩ := hm
  unfold marshalMetadata at hdoc
  cases hf : marshalEntries tm (m.Worktrees.entries.insertionSort keyLE) with
  | none => rw [hf] at hdoc; cases hdoc
  | some fields =>
    rw [hf] at hdoc
    cases hdoc
    have hperm : (m.Worktrees.entries.insertionSort keyLE).Perm m.Worktrees.entries :=
      List.perm_insertionSort keyLE _
    have hnd : (m.Worktrees.entries.insertionSort keyLE).NodupKeys :=
      (List.perm_nodupKeys hperm).2 m.Worktrees.nodupKeys
    have hst : ∀ kv ∈ m.Worktrees.entries.insertionSort keyLE,
        ValidUTF8 kv.1 = true ∧ kv.2.Storable tm tu := by
      intro kv hkv
      have hmem : kv ∈ m.Worktrees.entries := hperm.subset hkv
      obtain ⟨k, v⟩ := kv
      exact hent k v (AList.mem_lookup_iff.2 hmem)
    have hd := decodeFields_marshalEntries tm tu _ fields ∅ hst hf
    refine ⟨(m.Worktrees.entries.insertionSort keyLE).foldl (fun a kv => a.insert kv.1 kv.2) ∅,
      ?_, ?_⟩
    · have k1 : fieldIs "worktrees" (toValidUTF8 (lit "worktrees")) = true := by decide
      have k2 : fieldIs "worktrees" (toValidUTF8 (lit "mainline")) = false := by decide
      have k3 : fieldIs "mainline" (toValidUTF8 (lit "mainline")) = true := by decide
      simp only [unmarshalMetadata, decodeFields, decodeMetadataField, k1, k2, k3, decodeMap,
        decodeString, hd, Option.getD_none, Option.map_some', if_true, Bool.false_eq_true,
        if_false, toValidUTF8_of_valid _ hml]
    · intro t
      rw [lookup_foldl_insert t _ ∅ hnd]
      simp only [AList.lookup_empty, Option.orElse_none]
      rw [List.perm_dlookup t hnd m.Worktrees.nodupKeys hperm]
      cases h : List.dlookup t m.Worktrees.entries <;> simp [AList.lookup, h]

/-- C2, as the code has it: for a registry whose tickets, paths, branches and
mainline are valid UTF-8 and whose created times read back from their text as
they were, whenever Save succeeds, Load on the same repository root succeeds
and gives a registry with the same mainline and, ticket by ticket, the same
entries. -/
theorem Save_Load_roundtrip (w w2 : World) (repoPath : GoString) (m : Metadata)
    (hm : m.Storable w.timeMarshal w.timeUnmarshal)
    (hsave : Save w repoPath m = (.ok (), w2)) :
    ∃ loaded : Metadata, Load w2 repoPath = .ok loaded
      ∧ loaded.Mainline = m.Mainline
      ∧ ∀ t, loaded.GetWorktree t = m.GetWorktree t := by
  rcases Save_cases w repoPath m with ⟨_, h3⟩ | ⟨doc, _, _, h3⟩ | ⟨doc, h1, _, h3⟩
  · rw [h3] at hsave; cases hsave
  · rw [h3] at hsave; cases hsave
  · rw [h3] at hsave
    cases hsave
    obtain ⟨ws, hu, hl⟩ := unmarshal_marshalMetadata _ _ m hm doc h1
    refine ⟨⟨ws, m.Mainline⟩, ?_, rfl, hl⟩
    simp [Load, hu]

/-- Counterexample to C2 as stated: the registry with the ticket 0xFF is
saved without an error, and Load then succeeds, but with a registry that has
no entry for that ticket: the ticket has been stored as U+FFFD. -/
theorem Save_Load_loses_invalid_ticket :
    registryBadTicket.GetWorktree [0xFF]
        = some ⟨lit "/worktrees/r/" ++ [0xFF], [0xFF], ⟨0⟩, [0xFF]⟩
      ∧ (Save worldFresh (lit "/r") registryBadTicket).1 = .ok ()
      ∧ ∃ loaded : Metadata,
          Load (Save worldFresh (lit "/r") registryBadTicket).2 (lit "/r") = .ok loaded
            ∧ loaded.GetWorktree [0xFF] = none
            ∧ loaded.GetWorktree [0xEF, 0xBF, 0xBD]
              = some ⟨lit "/worktrees/r/" ++ [0xEF, 0xBF, 0xBD], [0xEF, 0xBF, 0xBD], ⟨0⟩,
                  [0xEF, 0xBF, 0xBD]⟩ :=
  ⟨rfl, rfl,
    (⟨AList.insert [0xEF, 0xBF, 0xBD]
      ⟨lit "/worktrees/r/" ++ [0xEF, 0xBF, 0xBD], [0xEF, 0xBF, 0xBD], ⟨0⟩, [0xEF, 0xBF, 0xBD]⟩ ∅,
      lit "main"⟩ : Metadata), by rfl, by decide, by decide⟩

theorem registryAB_storable :
    registryAB.Storable worldAB.timeMarshal worldAB.timeUnmarshal := by
  refine ⟨by decide, ?_⟩
  intro t e h
  have hmem := AList.mem_lookup_iff.1 h
  have hent : registryAB.Worktrees.entries
      = [⟨lit "B", ⟨lit "/w/B", lit "B", ⟨0⟩, lit "B"⟩⟩,
          ⟨lit "A", ⟨lit "/w/A", lit "A", ⟨0⟩, lit "A"⟩⟩] := by decide
  rw [hent] at hmem
  simp only [List.mem_cons, List.mem_singleton, List.not_mem_nil, or_false] at hmem
  rcases hmem with h1 | h1 <;> cases h1 <;>
    exact ⟨by decide, by decide, by decide, by decide, fun _ _ => rfl⟩

/-- Witness of C2 as amended: the registry with the tickets A and B is saved
and loaded back with both entries and the mainline. -/
theorem Save_Load_roundtrip_witness :
    (Save worldAB (lit "/r") registryAB).1 = .ok ()
      ∧ ∃ loaded : Metadata,
          Load (Save worldAB (lit "/r") registryAB).2 (lit "/r") = .ok loaded
            ∧ loaded.Mainline = registryAB.Mainline
            ∧ ∀ t, loaded.GetWorktree t = registryAB.GetWorktree t :=
  ⟨rfl, Save_Load_roundtrip worldAB (Save worldAB (lit "/r") registryAB).2 (lit "/r") registryAB
    registryAB_storable rfl⟩

/-- The registry of the counterexample arises in a run of the program:
`git tree create` with the ticket 0xFF succeeds at `/r`, and the registry
loaded afterwards has no entry for that ticket, so that Delete of the ticket
reports that it is not found. -/
theorem Create_invalid_ticket_not_found :
    (Create [[0xFF]] worldFresh).1 = .ok ()
      ∧ (∃ loaded : Metadata,
          Load (Create [[0xFF]] worldFresh).2 (lit "/r") = .ok loaded
            ∧ loaded.GetWorktree [0xFF] = none)
      ∧ (Delete [[0xFF]] (Create [[0xFF]] worldFresh).2).1
          = .error (Error.errorf "worktree for %s not found" [[0xFF]]) :=
  ⟨rfl,
    ⟨(⟨AList.insert [0xEF, 0xBF, 0xBD]
      ⟨lit "/worktrees/r/" ++ [0xEF, 0xBF, 0xBD], [0xEF, 0xBF, 0xBD], ⟨0⟩, [0xEF, 0xBF, 0xBD]⟩ ∅,
      lit "main"⟩ : Metadata), by rfl, by decide⟩,
    by rfl⟩

/-! ## Termination of the upward walk -/

theorem pathCost_splitOn (sep : Nat) (s : GoString) :
    pathCost (splitOn sep s) = s.length + 1 := by
  induction s with
  | nil => rfl
  | cons b rest ih =>
    by_cases hb : b = sep
    · simp only [splitOn, hb, if_true]
      simp only [pathCost, List.map_cons, List.sum_cons, List.length_nil, List.length_cons] at ih ⊢
      omega
    · simp only [splitOn, hb, if_false]
      cases hx : splitOn sep rest with
      | nil => exact absurd hx (splitOn_ne_nil sep rest)
      | cons c cs =>
        rw [hx] at ih
        simp only [pathCost, List.map_cons, List.sum_cons, List.length_cons] at ih ⊢
        omega

theorem pathCost_cleanStep (r : Bool) (S : List GoString) (c : GoString) :
    pathCost (cleanStep r S c) ≤ pathCost S + (c.length + 1) := by
  unfold cleanStep
  split
  · omega
  · split
    · cases S with
      | nil =>
        cases r <;> simp [pathCost]
      | cons top below =>
        simp only
        split
        · cases r
          · simp only [Bool.false_eq_true, if_false, pathCost, List.map_cons, List.sum_cons]
            omega
          · simp only [if_true, pathCost, List.map_cons, List.sum_cons]
            omega
        · simp only [pathCost, List.map_cons, List.sum_cons]
          omega
    · simp only [pathCost, List.map_cons, List.sum_cons]
      omega

theorem pathCost_foldl (r : Bool) (cs : List GoString) :
    ∀ S, pathCost (cs.foldl (cleanStep r) S) ≤ pathCost S + pathCost cs := by
  induction cs with
  | nil => intro S; simp [pathCost]
  | cons c rest ih =>
    intro S
    rw [List.foldl_cons]
    have h1 := ih (cleanStep r S c)
    have h2 := pathCost_cleanStep r S c
    simp only [pathCost, List.map_cons, List.sum_cons] at h1 h2 ⊢
    omega

theorem pathCost_reverse (cs : List GoString) : pathCost cs.reverse = pathCost cs := by
  simp [pathCost, List.sum_reverse]

theorem length_joinWith (cs : List GoString) :
    (joinWith [slash] cs).length + 1 = if cs = [] then 1 else pathCost cs := by
  induction cs with
  | nil => rfl
  | cons c rest ih =>
    cases rest with
    | nil => simp [joinWith, List.intercalate, List.intersperse, pathCost]
    | cons d rest2 =>
      rw [joinWith_cons_cons]
      simp only [List.length_append, List.length_singleton, reduceCtorEq, if_false] at ih ⊢
      simp only [pathCost, List.map_cons, List.sum_cons] at ih ⊢
      omega

theorem length_renderPath (r : Bool) (S : List GoString) :
    (renderPath r S).length ≤ max 1 (pathCost S - (if r then 0 else 1)) := by
  have h := length_joinWith S.reverse
  rw [pathCost_reverse] at h
  unfold renderPath
  simp only
  by_cases hS : S = []
  · subst hS
    cases r <;> simp [joinWith, List.intercalate, lit, pathCost]
  · have hr : S.reverse ≠ [] := by simpa using hS
    rw [if_neg hr] at h
    cases r with
    | true =>
      simp only [if_true, List.length_cons]
      omega
    | false =>
      simp only [Bool.false_eq_true, if_false]
      split
      · simp [lit]
      · omega

theorem splitOn_rooted (x : GoString) (h : isRooted x = true) :
    ∃ rest, splitOn slash x = [] :: rest ∧ pathCost rest = x.length := by
  cases x with
  | nil => simp [isRooted] at h
  | cons b t =>
    have hb : b = slash := by simpa [isRooted] using h
    subst hb
    refine ⟨splitOn slash t, by simp [splitOn], ?_⟩
    rw [pathCost_splitOn]
    simp

/-- Cleaning a path that ends in a separator drops that separator, unless
the path is the root. -/
theorem length_Clean_trailing (x : GoString) :
    (Clean (x ++ [slash])).length ≤ max 1 x.length := by
  by_cases hx : x = []
  · subst hx; decide
  · rw [Clean_of_ne _ (by simp), isRooted_append _ _ hx,
      show x ++ [slash] = x ++ slash :: [] from rfl, splitOn_append_sep, List.foldl_append]
    have hlast : ∀ S, List.foldl (cleanStep (isRooted x)) S (splitOn slash []) = S := by
      intro S
      simp [splitOn, cleanStep]
    rw [hlast]
    have hr := length_renderPath (isRooted x)
      (List.foldl (cleanStep (isRooted x)) [] (splitOn slash x))
    cases hroot : isRooted x with
    | true =>
      obtain ⟨rest, h1, h2⟩ := splitOn_rooted x hroot
      rw [hroot] at hr
      rw [h1] at hr ⊢
      simp only [List.foldl_cons, show cleanStep true [] [] = [] from rfl] at hr ⊢
      have hc := pathCost_foldl true rest []
      simp only [show pathCost [] = 0 from rfl, if_true] at hc hr
      omega
    | false =>
      rw [hroot] at hr
      have hc := pathCost_foldl false (splitOn slash x) []
      rw [pathCost_splitOn] at hc
      simp only [show pathCost [] = 0 from rfl, Bool.false_eq_true, if_false] at hc hr
      omega

theorem dirPart_of_not_mem (d : GoString) (h : slash ∉ d) : dirPart d = [] := by
  cases d with
  | nil => rfl
  | cons b rest =>
    simp only [List.mem_cons, not_or] at h
    have hb : ¬ b = slash := fun e => h.1 e.symm
    simp [dirPart, h.2, hb]

theorem dirPart_of_mem (d : GoString) (h : slash ∈ d) :
    ∃ x, dirPart d = x ++ [slash] ∧ x.length < d.length := by
  induction d with
  | nil => simp at h
  | cons b rest ih =>
    by_cases hr : slash ∈ rest
    · obtain ⟨x, h1, h2⟩ := ih hr
      refine ⟨b :: x, by simp [dirPart, hr, h1], by simp; omega⟩
    · have hb : b = slash := by
        rcases List.mem_cons.1 h with e | e
        · exact e.symm
        · exact absurd e hr
      exact ⟨[], by simp [dirPart, hr, hb], by simp⟩

/-- Every round of the upward walk that moves on lowers the rank of the
directory. -/
theorem walkRank_Dir (d : GoString) (h : Dir d ≠ d) : walkRank (Dir d) < walkRank d := by
  by_cases hs : slash ∈ d
  · obtain ⟨x, h1, h2⟩ := dirPart_of_mem d hs
    have hlen : (Dir d).length ≤ max 1 x.length := by
      unfold Dir; rw [h1]; exact length_Clean_trailing x
    have hd : walkRank d = d.length + 1 := by simp [walkRank, hs]
    rw [hd]
    by_cases h1d : d.length = 1
    · exfalso
      apply h
      cases d with
      | nil => simp at h1d
      | cons b rest =>
        cases rest with
        | nil =>
          have hb : b = slash := by
            have := List.mem_singleton.1 hs
            exact this.symm
          subst hb; decide
        | cons c r2 => simp at h1d
    · have : 1 ≤ d.length := by
        cases d with
        | nil => simp at hs
        | cons b rest => simp
      unfold walkRank
      split
      · omega
      · split <;> omega
  · have hD : Dir d = lit "." := by
      unfold Dir; rw [dirPart_of_not_mem d hs]; decide
    rw [hD] at h ⊢
    have hne : ¬ d = lit "." := fun e => h e.symm
    simp only [walkRank, hs, if_false, hne]
    decide

theorem walkRank_lt_walkFuel (d : GoString) : walkRank d < walkFuel d := by
  unfold walkRank walkFuel
  split
  · omega
  · split <;> omega

/-- The upward walk of GetPrimaryRepoPath does not depend on the fuel once
the fuel exceeds the rank of the directory: the walk ends by itself. -/
theorem primaryRepoWalk_fuel (w : World) :
    ∀ (n : Nat) (dir : GoString) (fuel : Nat), walkRank dir < n → walkRank dir < fuel →
      primaryRepoWalk w fuel dir = primaryRepoWalk w n dir := by
  intro n
  induction n with
  | zero => intro dir fuel h; omega
  | succ n ih =>
    intro dir fuel h1 h2
    cases fuel with
    | zero => omega
    | succ f =>
      simp only [primaryRepoWalk]
      cases w.stat (Join [dir, lit ".git"]) with
      | some isDir => rfl
      | none =>
        simp only
        by_cases hp : Dir dir = dir
        · simp [hp]
        · simp only [hp, if_false]
          have := walkRank_Dir dir hp
          exact ih (Dir dir) f (by omega) (by omega)

/-- The upward walk of IsInWorktree does not depend on the fuel once the
fuel exceeds the rank of the directory. -/
theorem inWorktreeWalk_fuel (w : World) :
    ∀ (n : Nat) (dir : GoString) (fuel : Nat), walkRank dir < n → walkRank dir < fuel →
      inWorktreeWalk w fuel dir = inWorktreeWalk w n dir := by
  intro n
  induction n with
  | zero => intro dir fuel h; omega
  | succ n ih =>
    intro dir fuel h1 h2
    cases fuel with
    | zero => omega
    | succ f =>
      simp only [inWorktreeWalk]
      cases w.stat (Join [dir, lit ".git"]) with
      | some isDir => rfl
      | none =>
        simp only
        by_cases hp : Dir dir = dir
        · simp [hp]
        · simp only [hp, if_false]
          have := walkRank_Dir dir hp
          exact ih (Dir dir) f (by omega) (by omega)

/-- The fuel GetPrimaryRepoPath and IsInWorktree give their walks is enough:
more fuel changes no result. -/
theorem walkFuel_enough (w : World) (dir : GoString) (fuel : Nat) (h : walkFuel dir ≤ fuel) :
    primaryRepoWalk w fuel dir = primaryRepoWalk w (walkFuel dir) dir
      ∧ inWorktreeWalk w fuel dir = inWorktreeWalk w (walkFuel dir) dir := by
  have hr := walkRank_lt_walkFuel dir
  exact ⟨primaryRepoWalk_fuel w _ dir fuel hr (by omega),
    inWorktreeWalk_fuel w _ dir fuel hr (by omega)⟩

/-! ## The primary worktree of a listing -/

theorem countP_eq_zero_of_any_false (l : List WorktreeInfo)
    (h : l.any (fun wt => wt.IsPrimary) = false) :
    l.countP (fun wt => wt.IsPrimary) = 0 := by
  rw [List.countP_eq_zero]
  intro wt hwt hp
  have : l.any (fun wt => wt.IsPrimary) = true := List.any_eq_true.2 ⟨wt, hwt, hp⟩
  rw [h] at this
  exact Bool.false_ne_true this

theorem markPrimary_cons (first : WorktreeInfo) (rest : List WorktreeInfo) :
    markPrimary (first :: rest)
      = if (first :: rest).any (fun wt => wt.IsPrimary) then first :: rest
        else { first with IsPrimary := true } :: rest := rfl

theorem markPrimary_fields (l : List WorktreeInfo) :
    (markPrimary l).map (fun wt => (wt.Path, wt.Branch, wt.Commit))
      = l.map (fun wt => (wt.Path, wt.Branch, wt.Commit)) := by
  cases l with
  | nil => rfl
  | cons first rest =>
    rw [markPrimary_cons]
    split <;> rfl

/-- C16: when `git worktree list --porcelain` succeeds with an output whose
worktrees, as collected from its lines, are not none and hold at most one
marked primary by the backend (a `bare` line), ListWorktrees returns a list
with exactly one worktree flagged IsPrimary: the collected list itself when
one is marked, otherwise the collected list with the flag set on its first
entry. The paths, branches and commits, their order and their number are
those collected. -/
theorem ListWorktrees_one_primary (r : Repo) (w : World) (output errors : GoString)
    (hrun : w.git w.log r.Path [lit "worktree", lit "list", lit "--porcelain"]
      = ⟨true, output, errors⟩)
    (hne : collectWorktrees output ≠ [])
    (hmost : (collectWorktrees output).countP (fun wt => wt.IsPrimary) ≤ 1) :
    ∃ result,
      (r.ListWorktrees w).1 = .ok result
        ∧ result.countP (fun wt => wt.IsPrimary) = 1
        ∧ result.map (fun wt => (wt.Path, wt.Branch, wt.Commit))
            = (collectWorktrees output).map (fun wt => (wt.Path, wt.Branch, wt.Commit))
        ∧ ((∃ wt ∈ collectWorktrees output, wt.IsPrimary = true) →
            result = collectWorktrees output)
        ∧ ((∀ wt ∈ collectWorktrees output, wt.IsPrimary = false) →
            ∃ first rest, collectWorktrees output = first :: rest
              ∧ result = { first with IsPrimary := true } :: rest) := by
  refine ⟨markPrimary (collectWorktrees output), ?_, ?_, markPrimary_fields _, ?_, ?_⟩
  · simp [Repo.ListWorktrees, World.runGit, hrun, parseWorktrees]
  · cases hc : collectWorktrees output with
    | nil => exact absurd hc hne
    | cons first rest =>
      rw [hc] at hmost
      rw [markPrimary_cons]
      cases hany : (first :: rest).any (fun wt => wt.IsPrimary) with
      | true =>
        simp only [if_true]
        obtain ⟨wt, hwt, hp⟩ := List.any_eq_true.1 hany
        have hpos : 0 < (first :: rest).countP (fun wt => wt.IsPrimary) :=
          List.countP_pos_iff.2 ⟨wt, hwt, hp⟩
        omega
      | false =>
        have h0 := countP_eq_zero_of_any_false _ hany
        have hf : first.IsPrimary = false := by
          cases hfp : first.IsPrimary with
          | false => rfl
          | true =>
            have : (first :: rest).any (fun wt => wt.IsPrimary) = true :=
              List.any_eq_true.2 ⟨first, List.mem_cons_self _ _, hfp⟩
            rw [hany] at this
            exact absurd this Bool.false_ne_true
        rw [List.countP_cons, hf] at h0
        simp only [Bool.false_eq_true, if_false]
        rw [List.countP_cons]
        simp only [if_true]
        simp only [Bool.false_eq_true, if_false, Nat.add_zero] at h0
        omega
  · rintro ⟨wt, hwt, hp⟩
    cases hc : collectWorktrees output with
    | nil => rfl
    | cons first rest =>
      rw [hc] at hwt
      rw [markPrimary_cons]
      rw [if_pos (List.any_eq_true.2 ⟨wt, hwt, hp⟩)]
  · intro hall
    cases hc : collectWorktrees output with
    | nil => exact absurd hc hne
    | cons first rest =>
      rw [hc] at hall
      refine ⟨first, rest, rfl, ?_⟩
      rw [markPrimary_cons]
      rw [if_neg]
      intro hany
      obtain ⟨wt, hwt, hp⟩ := List.any_eq_true.1 hany
      rw [hall wt hwt] at hp
      exact Bool.false_ne_true hp

/-- Witness of C16: in the listing of `worldAB` no worktree is marked by the
backend, and the first one, `/r`, is the one flagged. -/
theorem ListWorktrees_one_primary_witness :
    ∃ result,
      ((NewRepo (lit "/r")).ListWorktrees worldAB).1 = .ok result
        ∧ result.countP (fun wt => wt.IsPrimary) = 1
        ∧ result = worktreesAB := by
  obtain ⟨result, h1, h2, _, _, h5⟩ :=
    ListWorktrees_one_primary (NewRepo (lit "/r")) worldAB
      (lit "worktree /r\nHEAD abc\nbranch refs/heads/main\n\nworktree /w/A\nHEAD def\nbranch refs/heads/A\n\n")
      [] rfl (by decide) (by decide)
  refine ⟨result, h1, h2, ?_⟩
  have h6 : ((NewRepo (lit "/r")).ListWorktrees worldAB).1 = .ok worktreesAB := rfl
  rw [h1] at h6
  exact Except.ok.inj h6

/-! ## Mainline detection -/

theorem splitOn_nil (sep : Nat) : splitOn sep [] = [[]] := rfl

theorem DetectMainline_usable (r : Repo) (w : World) (x b : GoString)
    (hok : (w.git w.log r.Path headQuery).ok = true)
    (hparts : splitOn slash (TrimSpace (w.git w.log r.Path headQuery).stdout) = [x, b]) :
    r.DetectMainline w = (.ok b, afterProbes w r []) := by
  have hne : TrimSpace (w.git w.log r.Path headQuery).stdout ≠ [] := by
    intro h
    rw [h] at hparts
    exact absurd hparts (by simp [splitOn])
  unfold headQuery at hok hparts hne
  simp only [Repo.DetectMainline, World.runGit, hok, if_true, hparts, ne_eq, hne,
    not_false_eq_true, List.length_cons, List.length_nil]
  rfl

theorem DetectMainline_fallback (r : Repo) (w : World)
    (h : ¬ pointerUsable (w.git w.log r.Path headQuery)) :
    r.DetectMainline w
      = detectFallback r [lit "main", lit "master", lit "develop"] (afterProbes w r []) := by
  have hw : (w.runGit r.Path [lit "rev-parse", lit "--abbrev-ref", lit "origin/HEAD"]).2
      = afterProbes w r [] := rfl
  unfold Repo.DetectMainline
  simp only [hw]
  split
  · rename_i hok
    split
    · split
      · rename_i hlen
        exact absurd ⟨hok, hlen⟩ h
      · rfl
    · rfl
  · rfl

theorem detectFallback_three (r : Repo) (w : World) :
    detectFallback r [lit "main", lit "master", lit "develop"] (afterProbes w r [])
      = if probeOk w r [] (lit "main") then (.ok (lit "main"), afterProbes w r [lit "main"])
        else if probeOk w r [lit "main"] (lit "master") then
          (.ok (lit "master"), afterProbes w r [lit "main", lit "master"])
        else if probeOk w r [lit "main", lit "master"] (lit "develop") then
          (.ok (lit "develop"), afterProbes w r [lit "main", lit "master", lit "develop"])
        else
          (.error (Error.errorf "could not detect mainline branch" []),
            afterProbes w r [lit "main", lit "master", lit "develop"]) := by
  simp only [detectFallback, World.runGit, probeOk, afterProbes, probeArgs, List.map_cons,
    List.map_nil, List.append_assoc, List.cons_append, List.nil_append]

/-- C15 (amended): DetectMainline takes the branch from the remote's default
branch pointer when the query succeeds and its trimmed output has exactly two
parts around one separator: it returns the second part, so `origin/b` yields
`b` for every `b` without a separator, after the one query. In every other
case (the query fails, or its output is empty or has another number of
parts) it probes main, master and develop in this order and returns the first
whose probe succeeds; and it fails with the could-not-detect error exactly
when the answer of the pointer is not usable in this sense and none of the
three probes succeeds. -/
theorem DetectMainline_result (r : Repo) (w : World) :
    (pointerUsable (w.git w.log r.Path headQuery) →
        ∃ x b, splitOn slash (TrimSpace (w.git w.log r.Path headQuery).stdout) = [x, b]
          ∧ r.DetectMainline w = (.ok b, afterProbes w r []))
      ∧ (∀ b, (w.git w.log r.Path headQuery).ok = true → slash ∉ b →
          TrimSpace (w.git w.log r.Path headQuery).stdout = lit "origin/" ++ b →
          r.DetectMainline w = (.ok b, afterProbes w r []))
      ∧ (¬ pointerUsable (w.git w.log r.Path headQuery) →
          r.DetectMainline w
            = if probeOk w r [] (lit "main") then
                (.ok (lit "main"), afterProbes w r [lit "main"])
              else if probeOk w r [lit "main"] (lit "master") then
                (.ok (lit "master"), afterProbes w r [lit "main", lit "master"])
              else if probeOk w r [lit "main", lit "master"] (lit "develop") then
                (.ok (lit "develop"), afterProbes w r [lit "main", lit "master", lit "develop"])
              else
                (.error (Error.errorf "could not detect mainline branch" []),
                  afterProbes w r [lit "main", lit "master", lit "develop"]))
      ∧ ((r.DetectMainline w).1 = .error (Error.errorf "could not detect mainline branch" [])
          ↔ (¬ pointerUsable (w.git w.log r.Path headQuery)
              ∧ probeOk w r [] (lit "main") = false
              ∧ probeOk w r [lit "main"] (lit "master") = false
              ∧ probeOk w r [lit "main", lit "master"] (lit "develop") = false)) := by
  have husable : pointerUsable (w.git w.log r.Path headQuery) →
      ∃ x b, splitOn slash (TrimSpace (w.git w.log r.Path headQuery).stdout) = [x, b]
        ∧ r.DetectMainline w = (.ok b, afterProbes w r []) := by
    rintro ⟨hok, hlen⟩
    cases hs : splitOn slash (TrimSpace (w.git w.log r.Path headQuery).stdout) with
    | nil => rw [hs] at hlen; simp at hlen
    | cons x rest =>
      cases rest with
      | nil => rw [hs] at hlen; simp at hlen
      | cons b rest2 =>
        cases rest2 with
        | nil => exact ⟨x, b, rfl, DetectMainline_usable r w x b hok hs⟩
        | cons c rest3 => rw [hs] at hlen; simp at hlen
  have hfall : ¬ pointerUsable (w.git w.log r.Path headQuery) → _ :=
    fun h => (DetectMainline_fallback r w h).trans (detectFallback_three r w)
  refine ⟨husable, ?_, hfall, ?_⟩
  · intro b hok hb hout
    apply DetectMainline_usable r w (lit "origin") b hok
    rw [hout]
    have : lit "origin/" ++ b = lit "origin" ++ slash :: b := rfl
    rw [this, splitOn_append_of_not_mem slash (lit "origin") b (by decide),
      splitOn_of_not_mem slash b hb]
  · by_cases hu : pointerUsable (w.git w.log r.Path headQuery)
    · obtain ⟨x, b, _, h⟩ := husable hu
      rw [h]
      simp [hu]
    · rw [hfall hu]
      cases h1 : probeOk w r [] (lit "main") with
      | true => simp
      | false =>
        cases h2 : probeOk w r [lit "main"] (lit "master") with
        | true => simp
        | false =>
          cases h3 : probeOk w r [lit "main", lit "master"] (lit "develop") with
          | true => simp
          | false => simp [hu]

/-- Counterexample to C15 as stated: the query of the pointer succeeds with
`origin/release/v1`, the remote's default branch being `release/v1`, and
DetectMainline returns `main`, found by the probes that follow the query;
with none of main, master and develop at the remote it fails with the
could-not-detect error although the query succeeded. -/
theorem DetectMainline_slash_branch :
    ((worldPointer "origin/release/v1\n" ["main"]).git [] (lit "/r") headQuery).ok = true
      ∧ ((NewRepo (lit "/r")).DetectMainline (worldPointer "origin/release/v1\n" ["main"])).1
          = .ok (lit "main")
      ∧ ((NewRepo (lit "/r")).DetectMainline (worldPointer "origin/release/v1\n" ["main"])).2.log
          = [Event.exec (lit "/r") headQuery, Event.exec (lit "/r") (probeArgs (lit "main"))]
      ∧ lit "main" ≠ lit "release/v1"
      ∧ ((worldPointer "origin/release/v1\n" []).git [] (lit "/r") headQuery).ok = true
      ∧ ((NewRepo (lit "/r")).DetectMainline (worldPointer "origin/release/v1\n" [])).1
          = .error (Error.errorf "could not detect mainline branch" []) :=
  ⟨rfl, rfl, rfl, by decide, rfl, rfl⟩

/-- The amended C15 on examples: `origin/main` yields `main` after the one
query, and an empty answer of the pointer makes the probes decide. -/
theorem DetectMainline_examples :
    (NewRepo (lit "/r")).DetectMainline (worldPointer "origin/main\n" [])
        = (.ok (lit "main"), afterProbes (worldPointer "origin/main\n" []) (NewRepo (lit "/r")) [])
      ∧ ((NewRepo (lit "/r")).DetectMainline (worldPointer "\n" ["develop"])).1
        = .ok (lit "develop") := by
  have h := DetectMainline_result (NewRepo (lit "/r")) (worldPointer "origin/main\n" [])
  have h2 := DetectMainline_result (NewRepo (lit "/r")) (worldPointer "\n" ["develop"])
  refine ⟨h.2.1 (lit "main") rfl (by decide) rfl, ?_⟩
  rw [h2.2.2.1 (by rintro ⟨_, hlen⟩; revert hlen; decide)]
  rfl

/-! ## The upward walk and the nearest marker -/

theorem ancestor_succ (dir : GoString) (k : Nat) :
    ancestor dir (k + 1) = ancestor (Dir dir) k := by
  unfold ancestor
  rw [Function.iterate_succ_apply]

theorem ancestor_of_fixed (dir : GoString) (h : Dir dir = dir) :
    ∀ k, ancestor dir k = dir := by
  intro k
  induction k with
  | zero => rfl
  | succ k ih => rw [ancestor_succ, h, ih]

/-- The parents of a directory reach one that is its own parent. -/
theorem ancestor_reaches_top :
    ∀ (n : Nat) (dir : GoString), walkRank dir ≤ n →
      ∃ k, k ≤ n ∧ Dir (ancestor dir k) = ancestor dir k := by
  intro n
  induction n with
  | zero =>
    intro dir h
    refine ⟨0, le_refl _, ?_⟩
    by_contra hp
    have := walkRank_Dir dir hp
    omega
  | succ n ih =>
    intro dir h
    by_cases hp : Dir dir = dir
    · exact ⟨0, Nat.zero_le _, hp⟩
    · have := walkRank_Dir dir hp
      obtain ⟨k, hk, hfix⟩ := ih (Dir dir) (by omega)
      exact ⟨k + 1, by omega, by rw [ancestor_succ]; exact hfix⟩

/-- Both walks stop at the nearest marker. -/
theorem walks_found (w : World) (isDir : Bool) :
    ∀ (k : Nat) (dir : GoString) (fuel : Nat), walkRank dir < fuel →
      (∀ j, j < k → w.stat (markerPath (ancestor dir j)) = none) →
      w.stat (markerPath (ancestor dir k)) = some isDir →
      primaryRepoWalk w fuel dir
          = (if isDir then .ok (ancestor dir k)
             else getPrimaryRepoFromWorktree w (markerPath (ancestor dir k)))
        ∧ inWorktreeWalk w fuel dir = .ok (!isDir) := by
  intro k
  induction k with
  | zero =>
    intro dir fuel hf _ hk
    cases fuel with
    | zero => omega
    | succ f =>
      have hk2 : w.stat (Join [dir, lit ".git"]) = some isDir := hk
      simp only [primaryRepoWalk, inWorktreeWalk, hk2]
      exact ⟨rfl, trivial⟩
  | succ k ih =>
    intro dir fuel hf hnone hk
    cases fuel with
    | zero => omega
    | succ f =>
      have h0 : w.stat (Join [dir, lit ".git"]) = none := hnone 0 (Nat.succ_pos k)
      by_cases hp : Dir dir = dir
      · have hk2 : w.stat (Join [dir, lit ".git"]) = some isDir := by
          rw [ancestor_of_fixed dir hp] at hk
          exact hk
        rw [h0] at hk2
        cases hk2
      · have hr := walkRank_Dir dir hp
        have hrec := ih (Dir dir) f (by omega)
          (fun j hj => by rw [← ancestor_succ]; exact hnone (j + 1) (by omega))
          (by rw [← ancestor_succ]; exact hk)
        simp only [primaryRepoWalk, inWorktreeWalk, h0, hp, if_false]
        rw [ancestor_succ]
        exact hrec

/-- Both walks fail when no directory on the way up has a marker. -/
theorem walks_not_found (w : World) :
    ∀ (fuel : Nat) (dir : GoString),
      (∀ k, w.stat (markerPath (ancestor dir k)) = none) →
      primaryRepoWalk w fuel dir = .error (Error.errorf "not in a git repository" [])
        ∧ inWorktreeWalk w fuel dir = .error (Error.errorf "not in a git repository" []) := by
  intro fuel
  induction fuel with
  | zero => intro dir _; exact ⟨rfl, rfl⟩
  | succ f ih =>
    intro dir hnone
    have h0 : w.stat (Join [dir, lit ".git"]) = none := hnone 0
    by_cases hp : Dir dir = dir
    · simp [primaryRepoWalk, inWorktreeWalk, h0, hp]
    · simp only [primaryRepoWalk, inWorktreeWalk, h0, hp, if_false]
      exact ih (Dir dir) (fun k => by rw [← ancestor_succ]; exact hnone (k + 1))

/-- C13: GetPrimaryRepoPath and IsInWorktree, started in the directory `dir`,
are decided by the nearest of `dir` and its parents that holds a `.git`
marker. When the marker of the directory `k` steps up is the first one, and
is a directory, GetPrimaryRepoPath returns that directory and IsInWorktree
returns false; when it is a file, IsInWorktree returns true and
GetPrimaryRepoPath answers from the contents of the file. When no directory
on the way up has a marker, both fail with the not-in-a-git-repository
error. The walk ends: the parents of `dir` reach a directory that is its own
parent within the rank of `dir`, and the fuel of the model is enough (more
fuel gives the same results). -/
theorem walk_decided_by_nearest_marker (w : World) (dir : GoString)
    (hcwd : w.cwd = some dir) :
    (∀ k isDir, (∀ j, j < k → w.stat (markerPath (ancestor dir j)) = none) →
        w.stat (markerPath (ancestor dir k)) = some isDir →
        GetPrimaryRepoPath w
            = (if isDir then .ok (ancestor dir k)
               else getPrimaryRepoFromWorktree w (markerPath (ancestor dir k)))
          ∧ IsInWorktree w = .ok (!isDir))
      ∧ ((∀ k, w.stat (markerPath (ancestor dir k)) = none) →
          GetPrimaryRepoPath w = .error (Error.errorf "not in a git repository" [])
            ∧ IsInWorktree w = .error (Error.errorf "not in a git repository" []))
      ∧ (∃ k, k ≤ walkRank dir ∧ Dir (ancestor dir k) = ancestor dir k)
      ∧ (∀ fuel, walkFuel dir ≤ fuel →
          primaryRepoWalk w fuel dir = GetPrimaryRepoPath w
            ∧ inWorktreeWalk w fuel dir = IsInWorktree w) := by
  have hG : GetPrimaryRepoPath w = primaryRepoWalk w (walkFuel dir) dir := by
    simp [GetPrimaryRepoPath, hcwd]
  have hI : IsInWorktree w = inWorktreeWalk w (walkFuel dir) dir := by
    simp [IsInWorktree, hcwd]
  rw [hG, hI]
  refine ⟨?_, ?_, ancestor_reaches_top _ dir (le_refl _), ?_⟩
  · intro k isDir hnone hk
    exact walks_found w isDir k dir (walkFuel dir) (walkRank_lt_walkFuel dir) hnone hk
  · intro hnone
    exact walks_not_found w (walkFuel dir) dir hnone
  · intro fuel hfuel
    exact walkFuel_enough w dir fuel hfuel

/-- Witness of C13: two directories below the repository `/r` the marker found
is the directory `/r/.git`; inside the linked worktree `/w/A` it is a file. -/
theorem walk_decided_by_nearest_marker_witness :
    (GetPrimaryRepoPath worldDeep = .ok (lit "/r") ∧ IsInWorktree worldDeep = .ok false)
      ∧ IsInWorktree worldLinked = .ok true := by
  constructor
  · exact (walk_decided_by_nearest_marker worldDeep (lit "/r/sub/dir") rfl).1 2 true
      (fun j hj => by interval_cases j <;> rfl) rfl
  · exact ((walk_decided_by_nearest_marker worldLinked (lit "/w/A") rfl).1 0 false
      (fun j hj => absurd hj (Nat.not_lt_zero j)) rfl).2

/-! ## Prune run again -/

/-- No entry of the registry Prune keeps is stale. -/
theorem prunedRegistry_no_stale (cwd : Option GoString) (wts : List WorktreeInfo)
    (m : Metadata) :
    staleTicketsOf cwd (existingPathsOf cwd wts) (prunedRegistry cwd wts m).Worktrees.entries
      = [] := by
  apply List.eq_nil_iff_forall_not_mem.2
  intro t ht
  obtain ⟨e, he, hst⟩ := (mem_staleTicketsOf cwd wts (prunedRegistry cwd wts m) t).1 ht
  unfold prunedRegistry at he
  rw [removeTickets_GetWorktree] at he
  by_cases hmem : t ∈ staleTicketsOf cwd (existingPathsOf cwd wts) m.Worktrees.entries
  · rw [if_pos hmem] at he
    cases he
  · rw [if_neg hmem] at he
    exact hmem ((mem_staleTicketsOf cwd wts m t).2 ⟨e, he, hst⟩)

/-- Pruning the registry Prune keeps, against the same worktrees, changes
nothing. -/
theorem prunedRegistry_idem (cwd : Option GoString) (wts : List WorktreeInfo) (m : Metadata) :
    prunedRegistry cwd wts (prunedRegistry cwd wts m) = prunedRegistry cwd wts m := by
  have e : prunedRegistry cwd wts (prunedRegistry cwd wts m)
      = removeTickets (prunedRegistry cwd wts m)
          (staleTicketsOf cwd (existingPathsOf cwd wts)
            (prunedRegistry cwd wts m).Worktrees.entries) := rfl
  rw [e, prunedRegistry_no_stale]
  rfl

/-- C11 (amended): Prune is idempotent on the registry. Run again where the
primary root is found, the registry loaded is the one a first run kept and git
lists the same worktrees, Prune finds no stale ticket, removes no entry (the
registry it would keep is the one loaded), writes no file and runs only the
listing and the backend's own prune; it reports no error exactly when that
backend prune succeeds, and its only error is the one of the backend prune. -/
theorem Prune_idempotent (args : List GoString) (w : World) (root : GoString)
    (m : Metadata) (wts : List WorktreeInfo)
    (hroot : GetPrimaryRepoPath w = .ok root)
    (hload : Load w root = .ok (prunedRegistry w.cwd wts m))
    (hlist : ((NewRepo root).ListWorktrees w).1 = .ok wts) :
    staleTicketsOf w.cwd (existingPathsOf w.cwd wts)
        (prunedRegistry w.cwd wts m).Worktrees.entries = []
      ∧ prunedRegistry w.cwd wts (prunedRegistry w.cwd wts m) = prunedRegistry w.cwd wts m
      ∧ (Prune args w).2
          = { w with log := w.log
                ++ [Event.exec root [lit "worktree", lit "list", lit "--porcelain"],
                    Event.exec root [lit "worktree", lit "prune"]] }
      ∧ ((w.git (w.log ++ [Event.exec root [lit "worktree", lit "list", lit "--porcelain"]])
              root [lit "worktree", lit "prune"]).ok = true →
          (Prune args w).1 = .ok ())
      ∧ ((Prune args w).1 = .ok () ∨ ∃ err,
          (Prune args w).1 = .error (Error.wrapf "failed to prune worktrees: %w" [] err)
            ∧ (w.git (w.log ++ [Event.exec root [lit "worktree", lit "list", lit "--porcelain"]])
                root [lit "worktree", lit "prune"]).ok = false) := by
  have hnil := prunedRegistry_no_stale w.cwd wts m
  have hpair : (NewRepo root).ListWorktrees w
      = (.ok wts, { w with log := w.log ++ [Event.exec root
            [lit "worktree", lit "list", lit "--porcelain"]] }) :=
    Prod.ext hlist (ListWorktrees_snd _ _)
  refine ⟨hnil, prunedRegistry_idem _ _ _, ?_, ?_, ?_⟩
  · simp only [Prune, hroot, hload, hpair, hnil, List.length_nil, if_true]
    obtain ⟨res, h⟩ := PruneWorktrees_eq (NewRepo root) { w with log := w.log ++ [Event.exec root
          [lit "worktree", lit "list", lit "--porcelain"]] }
    rw [h]
    cases res <;> simp [NewRepo]
  · intro hok
    simp only [Prune, hroot, hload, hpair, hnil, List.length_nil, if_true]
    simp [Repo.PruneWorktrees, World.runGit, NewRepo, hok]
  · simp only [Prune, hroot, hload, hpair, hnil, List.length_nil, if_true]
    cases hok : (w.git (w.log ++ [Event.exec root [lit "worktree", lit "list", lit "--porcelain"]])
        root [lit "worktree", lit "prune"]).ok with
    | true => left; simp [Repo.PruneWorktrees, World.runGit, NewRepo, hok]
    | false =>
      right
      simp [Repo.PruneWorktrees, World.runGit, NewRepo, hok]
/-- Witness of C11: Prune run twice on `worldAB`. The first run removes B and
writes the registry; the second loads what the first kept, removes nothing,
writes nothing and reports no error. -/
theorem Prune_idempotent_witness :
    (Prune [] worldAB).1 = .ok ()
      ∧ Load (Prune [] worldAB).2 (lit "/r")
          = .ok (prunedRegistry (some (lit "/r")) worktreesAB registryAB)
      ∧ (Prune [] (Prune [] worldAB).2).1 = .ok ()
      ∧ (Prune [] (Prune [] worldAB).2).2.readFile = (Prune [] worldAB).2.readFile
      ∧ (Prune [] (Prune [] worldAB).2).2.log
          = (Prune [] worldAB).2.log
              ++ [Event.exec (lit "/r") [lit "worktree", lit "list", lit "--porcelain"],
                  Event.exec (lit "/r") [lit "worktree", lit "prune"]] := by
  obtain ⟨_, _, h3, h4, _⟩ :=
    Prune_idempotent [] (Prune [] worldAB).2 (lit "/r") registryAB worktreesAB rfl rfl rfl
  refine ⟨rfl, rfl, h4 rfl, ?_, ?_⟩
  · rw [h3]
  · rw [h3]

/-- Counterexample to C11 as stated: in `worldPruneOnce` the first run of
Prune succeeds and keeps the registry without B; the second run, against the
same registry and the same worktrees, reports an error, the one of the
backend's own prune. -/
theorem Prune_second_run_fails :
    (Prune [] worldPruneOnce).1 = .ok ()
      ∧ Load (Prune [] worldPruneOnce).2 (lit "/r")
          = .ok (prunedRegistry (some (lit "/r")) worktreesAB registryAB)
      ∧ ((NewRepo (lit "/r")).ListWorktrees (Prune [] worldPruneOnce).2).1 = .ok worktreesAB
      ∧ (Prune [] (Prune [] worldPruneOnce).2).1
          = .error (Error.wrapf "failed to prune worktrees: %w" []
              (Error.wrapf "failed to prune worktrees: %w\n%s" [lit "fatal: cannot lock"]
                Error.external)) :=
  ⟨rfl, rfl, rfl, rfl⟩

/-! ## Entries whose path has no absolute form -/

theorem staleTicketsOf_acc (cwd : Option GoString)
    (existingPaths : AList (fun _ : GoString => Bool))
    (entries : List (Sigma (fun _ : GoString => WorktreeEntry))) :
    ∀ acc : List GoString,
      entries.foldl
        (fun staleTickets kv =>
          match Abs cwd kv.2.Path with
          | none => staleTickets ++ [kv.1]
          | some absPath =>
            if (existingPaths.lookup absPath).getD false then staleTickets
            else staleTickets ++ [kv.1]) acc
      = acc ++ staleTicketsOf cwd existingPaths entries := by
  induction entries with
  | nil => intro acc; simp [staleTicketsOf]
  | cons kv rest ih =>
    intro acc
    have e : staleTicketsOf cwd existingPaths (kv :: rest)
        = (match Abs cwd kv.2.Path with
            | none => [] ++ [kv.1]
            | some absPath =>
              if (existingPaths.lookup absPath).getD false then []
              else [] ++ [kv.1]) ++ staleTicketsOf cwd existingPaths rest := by
      show List.foldl _ _ (kv :: rest) = _
      rw [List.foldl_cons, ih]
    rw [List.foldl_cons, ih, e]
    cases Abs cwd kv.2.Path with
    | none => simp
    | some p =>
      simp only
      split
      · simp
      · simp

theorem staleTicketsOf_append (cwd : Option GoString)
    (existingPaths : AList (fun _ : GoString => Bool))
    (a b : List (Sigma (fun _ : GoString => WorktreeEntry))) :
    staleTicketsOf cwd existingPaths (a ++ b)
      = staleTicketsOf cwd existingPaths a ++ staleTicketsOf cwd existingPaths b := by
  conv_lhs => unfold staleTicketsOf
  rw [List.foldl_append, staleTicketsOf_acc]
  rfl

theorem listRows_append (cwd : Option GoString)
    (existingPaths : AList (fun _ : GoString => WorktreeInfo)) (mainline : GoString)
    (a b : List (Sigma (fun _ : GoString => WorktreeEntry))) :
    ∀ w : World,
      listRows cwd existingPaths mainline (a ++ b) w
        = ((listRows cwd existingPaths mainline a w).1
            ++ (listRows cwd existingPaths mainline b
                (listRows cwd existingPaths mainline a w).2).1,
           (listRows cwd existingPaths mainline b
              (listRows cwd existingPaths mainline a w).2).2) := by
  induction a with
  | nil => intro w; rfl
  | cons kv rest ih =>
    intro w
    have e : ∀ l w2, listRows cwd existingPaths mainline (kv :: l) w2
        = (⟨kv.1, kv.2.Branch, (listStatus cwd existingPaths mainline kv.2 w2).1, kv.2.Path⟩
            :: (listRows cwd existingPaths mainline l
                (listStatus cwd existingPaths mainline kv.2 w2).2).1,
           (listRows cwd existingPaths mainline l
              (listStatus cwd existingPaths mainline kv.2 w2).2).2) := fun _ _ => rfl
    rw [List.cons_append, e, e, ih]
    rfl

/-- C12 (amended): an entry whose stored path has no absolute form makes
neither loop fail, and the entries around it are classified as they are
without it. The loop of Prune puts its ticket among the stale tickets, between
those of the entries before and after it. The loop of List prints its row
with the status `?` (not the stale status), between the rows of the entries
before and after it, and runs nothing for it. -/
theorem unresolvable_path_classified (cwd : Option GoString)
    (kv : Sigma (fun _ : GoString => WorktreeEntry))
    (before after : List (Sigma (fun _ : GoString => WorktreeEntry)))
    (hbad : Abs cwd kv.2.Path = none) :
    (∀ existingPaths : AList (fun _ : GoString => Bool),
        staleTicketsOf cwd existingPaths (before ++ kv :: after)
          = staleTicketsOf cwd existingPaths before
              ++ kv.1 :: staleTicketsOf cwd existingPaths after)
      ∧ (∀ (existingPaths : AList (fun _ : GoString => WorktreeInfo)) (mainline : GoString)
          (w : World),
          listRows cwd existingPaths mainline (before ++ kv :: after) w
            = ((listRows cwd existingPaths mainline before w).1
                ++ ⟨kv.1, kv.2.Branch, lit "?", kv.2.Path⟩
                  :: (listRows cwd existingPaths mainline after
                      (listRows cwd existingPaths mainline before w).2).1,
               (listRows cwd existingPaths mainline after
                  (listRows cwd existingPaths mainline before w).2).2)) := by
  constructor
  · intro existingPaths
    rw [staleTicketsOf_append]
    have h1 : staleTicketsOf cwd existingPaths (kv :: after)
        = staleTicketsOf cwd existingPaths ([kv] ++ after) := rfl
    rw [h1, staleTicketsOf_append]
    have h2 : staleTicketsOf cwd existingPaths [kv] = [kv.1] := by
      simp [staleTicketsOf, hbad]
    rw [h2]
    rfl
  · intro existingPaths mainline w
    rw [listRows_append]
    have h : ∀ w2, listStatus cwd existingPaths mainline kv.2 w2 = (lit "?", w2) := by
      intro w2
      simp [listStatus, hbad]
    simp only [listRows, h]

/-- Witness of C12: with no working directory to be had, the entry T at the
relative path `rel/T` stands between A (live) and B (gone). Prune finds T and
B stale; List shows A clean, T with `?` and B stale. -/
theorem unresolvable_path_classified_witness :
    Abs none (lit "rel/T") = none
      ∧ staleTicketsOf none (existingPathsOf none worktreesAB)
          [⟨lit "A", ⟨lit "/w/A", lit "A", ⟨0⟩, lit "A"⟩⟩,
           ⟨lit "T", ⟨lit "rel/T", lit "T", ⟨0⟩, lit "T"⟩⟩,
           ⟨lit "B", ⟨lit "/w/B", lit "B", ⟨0⟩, lit "B"⟩⟩]
        = [lit "T", lit "B"]
      ∧ (listRows none (existingWorktreesOf none worktreesAB) (lit "main")
          [⟨lit "A", ⟨lit "/w/A", lit "A", ⟨0⟩, lit "A"⟩⟩,
           ⟨lit "T", ⟨lit "rel/T", lit "T", ⟨0⟩, lit "T"⟩⟩,
           ⟨lit "B", ⟨lit "/w/B", lit "B", ⟨0⟩, lit "B"⟩⟩] worldAB).1
        = [⟨lit "A", lit "A", lit "clean", lit "/w/A"⟩,
           ⟨lit "T", lit "T", lit "?", lit "rel/T"⟩,
           ⟨lit "B", lit "B", lit "STALE", lit "/w/B"⟩] := by
  have h := unresolvable_path_classified none
    ⟨lit "T", ⟨lit "rel/T", lit "T", ⟨0⟩, lit "T"⟩⟩
    [⟨lit "A", ⟨lit "/w/A", lit "A", ⟨0⟩, lit "A"⟩⟩]
    [⟨lit "B", ⟨lit "/w/B", lit "B", ⟨0⟩, lit "B"⟩⟩] rfl
  refine ⟨rfl, ?_, ?_⟩
  · exact (h.1 (existingPathsOf none worktreesAB)).trans rfl
  · have h2 := h.2 (existingWorktreesOf none worktreesAB) (lit "main") worldAB
    exact (congrArg Prod.fst h2).trans rfl

/-- Counterexample to C12 as stated: for an entry whose stored path has no
absolute form the loop of List prints the status `?`, which is not the stale
status it prints for an entry whose path is no worktree's. -/
theorem List_unresolvable_path_not_stale :
    Abs none (lit "rel/T") = none
      ∧ (listRows none (existingWorktreesOf none worktreesAB) (lit "main")
          [⟨lit "T", ⟨lit "rel/T", lit "T", ⟨0⟩, lit "T"⟩⟩,
           ⟨lit "B", ⟨lit "/w/B", lit "B", ⟨0⟩, lit "B"⟩⟩] worldAB).1
        = [⟨lit "T", lit "T", lit "?", lit "rel/T"⟩,
           ⟨lit "B", lit "B", lit "STALE", lit "/w/B"⟩]
      ∧ lit "?" ≠ lit "STALE" :=
  ⟨rfl, rfl, by decide⟩

/-! ## The pointer file of a linked worktree -/

theorem dirPart_append_sep (x c : GoString) (hc : slash ∉ c) :
    dirPart (x ++ slash :: c) = x ++ [slash] := by
  induction x with
  | nil => simp [dirPart, hc]
  | cons b rest ih =>
    have hmem : slash ∈ rest ++ slash :: c := by simp
    have e : dirPart (b :: (rest ++ slash :: c))
        = if slash ∈ rest ++ slash :: c then b :: dirPart (rest ++ slash :: c)
          else if b = slash then [slash] else [] := rfl
    rw [List.cons_append, e, if_pos hmem, ih]
    rfl

/-- Cleaning a cleaned rooted path with more elements after it goes on from
the elements of the path. -/
theorem Clean_render_append (S : List GoString) (t : GoString) (hS : GoodStack true S) :
    Clean (renderPath true S ++ slash :: t)
      = renderPath true ((splitOn slash t).foldl (cleanStep true) S) := by
  obtain ⟨h1, h2, h3⟩ := foldl_split_render true S hS
  rw [Clean_of_ne _ (by simp), isRooted_append _ _ h3, h2, splitOn_append_sep,
    List.foldl_append, h1]

theorem Dir_render_append (T : List GoString) (c : GoString) (hT : GoodStack true T)
    (hc : slash ∉ c) : Dir (renderPath true T ++ slash :: c) = renderPath true T := by
  unfold Dir
  rw [dirPart_append_sep _ _ hc, show renderPath true T ++ [slash]
    = renderPath true T ++ slash :: [] from rfl, Clean_render_append T [] hT]
  rfl

theorem joinWith_concat (l : List GoString) (c : GoString) (hl : l ≠ []) :
    joinWith [slash] (l ++ [c]) = joinWith [slash] l ++ slash :: c := by
  induction l with
  | nil => exact absurd rfl hl
  | cons d rest ih =>
    cases rest with
    | nil => simp [joinWith, List.intercalate, List.intersperse]
    | cons e rest2 =>
      have ih2 := ih (by simp)
      rw [List.cons_append, List.cons_append, joinWith_cons_cons, joinWith_cons_cons,
        ← List.cons_append, ih2]
      simp

theorem renderPath_cons (c : GoString) (T : List GoString) (hT : T ≠ []) :
    renderPath true (c :: T) = renderPath true T ++ slash :: c := by
  simp only [renderPath, if_true, List.reverse_cons]
  rw [joinWith_concat _ _ (by simpa using hT)]
  rfl

/-- The parent of a cleaned rooted path is the path without its last
element. -/
theorem Dir_render_cons (c : GoString) (T : List GoString) (h : GoodStack true (c :: T)) :
    Dir (renderPath true (c :: T)) = renderPath true T := by
  by_cases hT : T = []
  · subst hT
    have e : renderPath true [c] = [] ++ slash :: c := by
      simp [renderPath, joinWith, List.intercalate, List.intersperse]
    unfold Dir
    rw [e, dirPart_append_sep _ _ h.1.2.2]
    decide
  · rw [renderPath_cons c T hT]
    exact Dir_render_append T c h.2.2 h.1.2.2

/-- Removing a trailing newline from a path leaves its last element free of
separators. -/
theorem strip_newline_last (base seg : GoString) (hseg : slash ∉ seg) :
    ∃ seg2, slash ∉ seg2 ∧
      (if (base ++ slash :: seg).length > 0 ∧ (base ++ slash :: seg).getLast? = some 10
        then (base ++ slash :: seg).dropLast else base ++ slash :: seg)
        = base ++ slash :: seg2 := by
  rcases List.eq_nil_or_concat seg with rfl | ⟨init, last, h⟩
  · refine ⟨[], hseg, ?_⟩
    rw [if_neg]
    simp
  · rw [List.concat_eq_append] at h
    subst h
    by_cases hl : last = 10
    · subst hl
      refine ⟨init, fun h => hseg (List.mem_append_left _ h), ?_⟩
      have e : base ++ slash :: (init ++ [10]) = (base ++ slash :: init) ++ [10] := by simp
      have hg : ((base ++ slash :: init) ++ [10]).getLast? = some 10 :=
        List.getLast?_concat _
      rw [e, if_pos ⟨by simp, hg⟩, List.dropLast_concat]
    · refine ⟨init ++ [last], hseg, ?_⟩
      rw [if_neg]
      have e : base ++ slash :: (init ++ [last]) = (base ++ slash :: init) ++ [last] := by simp
      have hg : ((base ++ slash :: init) ++ [last]).getLast? = some last :=
        List.getLast?_concat _
      rw [e, hg]
      simp [hl]
theorem cleanStep_plain (S : List GoString) (c : GoString)
    (h1 : c ≠ []) (h2 : c ≠ lit ".") (h3 : c ≠ lit "..") : cleanStep true S c = c :: S := by
  unfold cleanStep
  rw [if_neg (by push_neg; exact ⟨h1, h2⟩), if_neg h3]

/-- The cleaned form of the path a pointer file names: the cleaned root with
`.git`, `worktrees` and the name after it. -/
theorem Clean_pointer_path (P seg : GoString) (hP : isRooted P = true)
    (h1 : seg ≠ []) (h2 : seg ≠ lit ".") (h3 : seg ≠ lit "..") (h4 : slash ∉ seg) :
    ∃ S, GoodStack true S ∧ Clean P = renderPath true S
      ∧ Clean (P ++ lit "/.git/worktrees/" ++ seg)
          = renderPath true (lit "worktrees" :: lit ".git" :: S) ++ slash :: seg := by
  have hne : P ≠ [] := by
    intro h; rw [h] at hP; exact absurd hP (by decide)
  have hgood := foldl_cleanStep_good true (splitOn slash P) [] trivial (splitOn_no_sep slash P)
  have hC : Clean P = renderPath true ((splitOn slash P).foldl (cleanStep true) []) := by
    rw [Clean_of_ne P hne, hP]
  refine ⟨(splitOn slash P).foldl (cleanStep true) [], hgood, hC, ?_⟩
  have e : P ++ lit "/.git/worktrees/" ++ seg
      = P ++ slash :: (lit ".git" ++ slash :: (lit "worktrees" ++ slash :: seg)) := by
    rw [List.append_assoc]; rfl
  rw [e, ← Clean_append_Clean P _ hne, hC, Clean_render_append _ _ hgood,
    splitOn_append_of_not_mem slash (lit ".git") _ (by decide),
    splitOn_append_of_not_mem slash (lit "worktrees") _ (by decide),
    splitOn_of_not_mem slash seg h4]
  simp only [List.foldl_cons, List.foldl_nil]
  rw [cleanStep_plain _ (lit ".git") (by decide) (by decide) (by decide),
    cleanStep_plain _ (lit "worktrees") (by decide) (by decide) (by decide),
    cleanStep_plain _ seg h1 h2 h3]
  exact renderPath_cons seg _ (by simp)

theorem GoodStack_git_worktrees (S : List GoString) (hS : GoodStack true S) :
    GoodStack true (lit "worktrees" :: lit ".git" :: S) :=
  ⟨⟨by decide, by decide, by decide⟩, fun h => absurd h (by decide),
    ⟨by decide, by decide, by decide⟩, fun h => absurd h (by decide), hS⟩

/-- What getPrimaryRepoFromWorktree returns for a pointer file that names
`P/.git/worktrees/seg`, the newline of the file counted in `seg`. -/
theorem pointer_file_root (w : World) (gitFilePath P seg : GoString)
    (hP : isRooted P = true)
    (h1 : seg ≠ []) (h2 : seg ≠ lit ".") (h3 : seg ≠ lit "..") (h4 : slash ∉ seg)
    (hfile : w.readFile gitFilePath
      = ReadResult.ok (FileData.text (lit "gitdir: " ++ (P ++ lit "/.git/worktrees/" ++ seg)))) :
    getPrimaryRepoFromWorktree w gitFilePath = .ok (Clean P) := by
  obtain ⟨S, hS, hC, hpath⟩ := Clean_pointer_path P seg hP h1 h2 h3 h4
  have hg : lit "gitdir: " = [103, 105, 116, 100, 105, 114, 58, 32] := by decide
  have hT := GoodStack_git_worktrees S hS
  obtain ⟨seg2, hs2, hstrip⟩ :=
    strip_newline_last (renderPath true (lit "worktrees" :: lit ".git" :: S)) seg h4
  unfold getPrimaryRepoFromWorktree
  rw [hfile]
  simp only
  have hdrop : (lit "gitdir: " ++ (P ++ lit "/.git/worktrees/" ++ seg)).drop 8
      = P ++ lit "/.git/worktrees/" ++ seg := by
    rw [hg]; rfl
  have htake : (lit "gitdir: " ++ (P ++ lit "/.git/worktrees/" ++ seg)).take 8
      = lit "gitdir: " := by
    rw [hg]; rfl
  have hlen : ¬ (lit "gitdir: " ++ (P ++ lit "/.git/worktrees/" ++ seg)).length < 8 := by
    rw [hg]; simp
  rw [if_neg (fun h => h.elim hlen (fun h2 => h2 htake)), hdrop, hpath, hstrip,
    Dir_render_append _ _ hT hs2, Dir_render_cons _ _ hT, Dir_render_cons _ _ hT.2.2, hC]

/-- C14 (amended): for every absolute primary root path `P` and worktree name
`n`, a single non-empty path segment, getPrimaryRepoFromWorktree returns `P`
in cleaned form (`filepath.Clean(P)`, which is `P` when `P` is clean) when
the pointer file holds `gitdir: ` followed by `P/.git/worktrees/n`: with a
trailing newline for every such `n`, and without one when `n` is neither `.`
nor `..`. Contents that do not start with `gitdir: ` are rejected with the
invalid-format error. -/
theorem getPrimaryRepoFromWorktree_pointer (P n : GoString)
    (hP : isRooted P = true) (hn : n ≠ []) (hs : slash ∉ n) :
    (∀ (w : World) (gitFilePath : GoString),
        w.readFile gitFilePath
          = ReadResult.ok (FileData.text
              (lit "gitdir: " ++ P ++ lit "/.git/worktrees/" ++ n ++ lit "\n")) →
        getPrimaryRepoFromWorktree w gitFilePath = .ok (Clean P))
      ∧ (n ≠ lit "." → n ≠ lit ".." → ∀ (w : World) (gitFilePath : GoString),
          w.readFile gitFilePath
            = ReadResult.ok (FileData.text (lit "gitdir: " ++ P ++ lit "/.git/worktrees/" ++ n)) →
          getPrimaryRepoFromWorktree w gitFilePath = .ok (Clean P))
      ∧ (∀ (w : World) (gitFilePath content : GoString),
          ¬ (lit "gitdir: " <+: content) →
          w.readFile gitFilePath = ReadResult.ok (FileData.text content) →
          getPrimaryRepoFromWorktree w gitFilePath
            = .error (Error.errorf "invalid .git file format" [])) := by
  refine ⟨?_, ?_, ?_⟩
  · intro w gitFilePath hfile
    apply pointer_file_root w gitFilePath P (n ++ lit "\n") hP
    · intro h
      exact hn (List.append_eq_nil.1 h).1
    · intro h
      have h5 := congrArg List.getLast? h
      rw [show lit "\n" = [10] from rfl, List.getLast?_concat] at h5
      revert h5; decide
    · intro h
      have h5 := congrArg List.getLast? h
      rw [show lit "\n" = [10] from rfl, List.getLast?_concat] at h5
      revert h5; decide
    · intro h
      rcases List.mem_append.1 h with h6 | h6
      · exact hs h6
      · revert h6; decide
    · rw [hfile]
      simp only [List.append_assoc]
  · intro h2 h3 w gitFilePath hfile
    apply pointer_file_root w gitFilePath P n hP hn h2 h3 hs
    rw [hfile]
    simp only [List.append_assoc]
  · intro w gitFilePath content hpre hfile
    unfold getPrimaryRepoFromWorktree
    rw [hfile]
    simp only
    rw [if_pos]
    by_contra hcon
    push_neg at hcon
    apply hpre
    rw [← hcon.2]
    exact List.take_prefix 8 content

/-- Witness of C14: the pointer file of the linked worktree `/w/A` names
`/r/.git/worktrees/A`, with a newline and without, and the root found is
`/r`; a file that starts otherwise is rejected. -/
theorem getPrimaryRepoFromWorktree_pointer_witness :
    getPrimaryRepoFromWorktree worldLinked (lit "/w/A/.git") = .ok (lit "/r")
      ∧ getPrimaryRepoFromWorktree
          (worldPointerFile (lit "gitdir: " ++ lit "/r" ++ lit "/.git/worktrees/" ++ lit "A"))
          (lit "/w/A/.git") = .ok (lit "/r")
      ∧ getPrimaryRepoFromWorktree (worldPointerFile (lit "gitdir:/r/.git/worktrees/A"))
          (lit "/w/A/.git") = .error (Error.errorf "invalid .git file format" []) := by
  have h := getPrimaryRepoFromWorktree_pointer (lit "/r") (lit "A") rfl (by decide) (by decide)
  exact ⟨h.1 worldLinked (lit "/w/A/.git") rfl,
    h.2.1 (by decide) (by decide) _ (lit "/w/A/.git") rfl,
    h.2.2 _ (lit "/w/A/.git") _ (by decide) rfl⟩

/-- Counterexample to C14 as stated: for the root `/a/b` and the segment `..`
as the name, without a newline, the root returned is `/`; and for the root
`/a/b/`, which ends in a separator, the root returned is `/a/b`. -/
theorem getPrimaryRepoFromWorktree_not_root :
    (isRooted (lit "/a/b") = true ∧ lit ".." ≠ [] ∧ slash ∉ lit ".."
        ∧ getPrimaryRepoFromWorktree
            (worldPointerFile (lit "gitdir: " ++ lit "/a/b" ++ lit "/.git/worktrees/" ++ lit ".."))
            (lit "/w/A/.git") = .ok (lit "/")
        ∧ lit "/" ≠ lit "/a/b")
      ∧ (isRooted (lit "/a/b/") = true ∧ lit "n" ≠ [] ∧ slash ∉ lit "n"
        ∧ getPrimaryRepoFromWorktree
            (worldPointerFile
              (lit "gitdir: " ++ lit "/a/b/" ++ lit "/.git/worktrees/" ++ lit "n" ++ lit "\n"))
            (lit "/w/A/.git") = .ok (lit "/a/b")
        ∧ lit "/a/b" ≠ lit "/a/b/") :=
  ⟨⟨rfl, by decide, by decide, rfl, by decide⟩, ⟨rfl, by decide, by decide, rfl, by decide⟩⟩

end GitTree
